import Mathlib

/-!
# Duplicate content checker (`content.js`)

A shallow embedding of the engine of `content.js`: the duplicate detector
(`checkForDuplicates`), the URL-to-level deriver (`updateLevelByURL`), the
debounced input coordinator (`handleInput`), the submission validator
(`handleSubmit`) and the attachment observer (`addInputListeners`).

JavaScript strings are lists of characters.  The page is a list of text-capable
fields in document order; a field is identified by its position in that list.
The browser's timer table is explicit state.  `String.prototype.toLowerCase`
is a parameter of every definition that uses it.
-/

set_option autoImplicit false

namespace DuplicateChecker

/-- A JavaScript string. -/
abbrev JSString := List Char

/-! ## String primitives used by the script -/

/-- The code points `String.prototype.trim` strips: ECMAScript WhiteSpace and
LineTerminator. -/
def isTrimChar (c : Char) : Bool :=
  let n := c.toNat
  n == 0x09 || n == 0x0A || n == 0x0B || n == 0x0C || n == 0x0D || n == 0x20 ||
  n == 0xA0 || n == 0x1680 || (0x2000 ≤ n && n ≤ 0x200A) || n == 0x2028 ||
  n == 0x2029 || n == 0x202F || n == 0x205F || n == 0x3000 || n == 0xFEFF

/-- The method `String.prototype.trim`. -/
def trim (s : JSString) : JSString :=
  ((s.dropWhile isTrimChar).reverse.dropWhile isTrimChar).reverse

/-- The replacement `url.replace(/^https?:\/\//, '')`. -/
def replaceScheme : JSString → JSString
  | 'h' :: 't' :: 't' :: 'p' :: 's' :: ':' :: '/' :: '/' :: rest => rest
  | 'h' :: 't' :: 't' :: 'p' :: ':' :: '/' :: '/' :: rest => rest
  | s => s

/-- The replacement `path.replace(/\/$/, '')`. -/
def replaceTrailingSlash (s : JSString) : JSString :=
  if s.getLast? = some '/' then s.dropLast else s

/-- The array `path.match(/\//g) || []`: one entry per `/` of the string. -/
def matchSlashes (s : JSString) : List Char :=
  s.filter (fun c => c == '/')

/-- The string a non-negative integer becomes when it is assigned to `input.value`. -/
def numberToString (n : Nat) : JSString :=
  Nat.toDigits 10 n

/-! ## Configuration and fields -/

/-- The object `CONFIG`. -/
structure Config where
  checkDelay : Nat
  highlightColor : JSString
  normalColor : JSString
  showNotification : Bool
  checkOnSubmit : Bool
  caseSensitive : Bool
  urlInputWidthThreshold : Nat
deriving DecidableEq, Repr

/-- The initial value of `CONFIG`. -/
def CONFIG : Config :=
  { checkDelay := 500
    highlightColor := "#ff6b6b".toList
    normalColor := []
    showNotification := true
    checkOnSubmit := true
    caseSensitive := true
    urlInputWidthThreshold := 150 }

/-- A text-capable field (`input[type="text"]`, `input[type="email"]`, `textarea`).
`rows` lists the `tr` ancestors, innermost first; `form` is the enclosing form;
`listenerAdded` is `dataset.listenerAdded`; `listeners` counts the calls of
`addEventListener('input', handleInput)` on the field. -/
structure Field where
  offsetWidth : Nat
  value : JSString
  backgroundColor : JSString
  rows : List Nat
  form : Option Nat
  listenerAdded : Bool
  listeners : Nat
deriving DecidableEq, Repr

/-- The value `CONFIG.caseSensitive ? el.value : el.value.toLowerCase()`. -/
def normalized (toLowerCase : JSString → JSString) (cfg : Config) (el : Field) : JSString :=
  if cfg.caseSensitive then el.value else toLowerCase el.value

/-- The messages `showNotification(message)` displays: none when notifications are off. -/
def showNotification (cfg : Config) (message : JSString) : List JSString :=
  if !cfg.showNotification then [] else [message]

/-- The method `Set.prototype.add` on an insertion-ordered set. -/
def setAdd (h : List JSString) (v : JSString) : List JSString :=
  if v ∈ h then h else h ++ [v]

/-- What one call of `checkForDuplicates` yields: the field afterwards, `inputHistory`
afterwards, the messages displayed, and the returned boolean. -/
structure CheckResult where
  element : Field
  inputHistory : List JSString
  notifications : List JSString
  result : Bool
deriving DecidableEq, Repr

/-- The function `checkForDuplicates(inputElement)`. -/
def checkForDuplicates (toLowerCase : JSString → JSString) (cfg : Config)
    (inputHistory : List JSString) (inputElement : Field) : CheckResult :=
  if inputElement.offsetWidth ≤ cfg.urlInputWidthThreshold then
    { element := { inputElement with backgroundColor := cfg.normalColor }
      inputHistory := inputHistory, notifications := [], result := false }
  else
    let value := normalized toLowerCase cfg inputElement
    if trim value = [] then
      { element := { inputElement with backgroundColor := cfg.normalColor }
        inputHistory := inputHistory, notifications := [], result := false }
    else if value ∈ inputHistory then
      { element := { inputElement with backgroundColor := cfg.highlightColor }
        inputHistory := inputHistory
        notifications :=
          showNotification cfg ("检测到重复内容: \"".toList ++ inputElement.value ++ "\"".toList)
        result := true }
    else
      { element := { inputElement with backgroundColor := cfg.normalColor }
        inputHistory := setAdd inputHistory value, notifications := [], result := false }

/-- A sequence of detector calls, each on a field as it is at the time of the call, with
`inputHistory` threaded through and `CONFIG` unchanged; the list of the calls' outcomes. -/
def checkSequence (toLowerCase : JSString → JSString) (cfg : Config) :
    List JSString → List Field → List CheckResult
  | _, [] => []
  | inputHistory, el :: rest =>
    let r := checkForDuplicates toLowerCase cfg inputHistory el
    r :: checkSequence toLowerCase cfg r.inputHistory rest

/-- Lower-casing of the ASCII letters, on which `toLowerCase` agrees with it; it stands
for `String.prototype.toLowerCase` at concrete inputs. -/
def toLowerCaseASCII (s : JSString) : JSString :=
  s.map Char.toLower

/-! ## The page, the timer table and the handlers -/

/-- The closures the script passes to `setTimeout`. -/
inductive Callback where
  /-- The closure of `handleInput`: the detector, then the deriver, on `inputElement`. -/
  | check (inputElement : Nat)
  /-- The closure of `updateLevelByURL`: restore the level field's background. -/
  | revert (levelInput : Nat) (originalColor : JSString)
  /-- The closure of `showNotification`: hide the notification. -/
  | hide
deriving DecidableEq, Repr

/-- A pending timer of the browser's timer table. -/
structure Timer where
  id : Nat
  due : Nat
  callback : Callback
deriving DecidableEq, Repr

/-- The script's variables (`CONFIG`, `inputHistory`, `checkTimeout`), the page's fields,
the browser's timer table and clock, the notification element with the messages it has
displayed, and four logs kept for the statements: the targets `handleInput` was called
with, the fields the debounce callback evaluated, the values written into level fields and
the targets of the synthetic `input` events. -/
structure State where
  config : Config
  inputHistory : List JSString
  checkTimeout : Option Nat
  fields : List Field
  timers : List Timer
  nextTimer : Nat
  now : Nat
  visible : Bool
  notifications : List JSString
  handled : List Nat
  evaluations : List Nat
  derived : List (Nat × JSString)
  dispatched : List Nat
deriving DecidableEq, Repr

/-- Apply `g` to the field at position `j`. -/
def modifyAt (g : Field → Field) : Nat → List Field → List Field
  | _, [] => []
  | 0, f :: fs => g f :: fs
  | n + 1, f :: fs => f :: modifyAt g n fs

/-- The call `setTimeout(callback, delay)`; the timer's id is the old `nextTimer`. -/
def setTimeout (callback : Callback) (delay : Nat) (s : State) : State :=
  { s with
    timers := s.timers ++ [{ id := s.nextTimer, due := s.now + delay, callback := callback }]
    nextTimer := s.nextTimer + 1 }

/-- The call `clearTimeout(id)`; `none` is `undefined`. -/
def clearTimeout (id : Option Nat) (s : State) : State :=
  match id with
  | none => s
  | some i => { s with timers := s.timers.filter (fun t => t.id != i) }

/-- The body of `showNotification` past its guard: the message is displayed and a timer
hides it 3000 ms later. -/
def display (message : JSString) (s : State) : State :=
  setTimeout Callback.hide 3000
    { s with notifications := s.notifications ++ [message], visible := true }

/-- The function `showNotification(message)` on the page: nothing when notifications
are off. -/
def notify (message : JSString) (s : State) : State :=
  if !s.config.showNotification then s else display message s

/-- The function `checkForDuplicates(inputElement)` on the field at position `i`. -/
def checkForDuplicatesAt (toLowerCase : JSString → JSString) (i : Nat) (s : State) :
    State × Bool :=
  match s.fields[i]? with
  | none => (s, false)
  | some el =>
    let r := checkForDuplicates toLowerCase s.config s.inputHistory el
    let s1 : State :=
      { s with
        fields := modifyAt (fun _ => r.element) i s.fields
        inputHistory := r.inputHistory }
    (r.notifications.foldl (fun st m => display m st) s1, r.result)

/-- The function `handleInput(event)` with `event.target` the field at position `target`. -/
def handleInput (target : Nat) (s : State) : State :=
  let s1 := clearTimeout s.checkTimeout s
  let s2 := setTimeout (Callback.check target) s1.config.checkDelay s1
  { s2 with checkTimeout := some s1.nextTimer, handled := s2.handled ++ [target] }

/-- An `input` event on the field at position `target`: `handleInput` runs when the
field has the listener. -/
def dispatchInput (target : Nat) (s : State) : State :=
  match s.fields[target]? with
  | none => s
  | some f => if 0 < f.listeners then handleInput target s else s

/-- The positions of the fields of `row`, in document order:
`Array.from(row.querySelectorAll(...))`. -/
def allInputs (row : Nat) (fields : List Field) : List Nat :=
  (List.range fields.length).filter
    (fun j => match fields[j]? with
      | some f => decide (row ∈ f.rows)
      | none => false)

/-- The array `urlInputs`. -/
def urlInputs (cfg : Config) (row : Nat) (fields : List Field) : List Nat :=
  (allInputs row fields).filter
    (fun j => match fields[j]? with
      | some f => decide (cfg.urlInputWidthThreshold < f.offsetWidth)
      | none => false)

/-- The array `levelInputs`. -/
def levelInputs (cfg : Config) (row : Nat) (fields : List Field) : List Nat :=
  (allInputs row fields).filter
    (fun j => match fields[j]? with
      | some f => decide (f.offsetWidth ≤ cfg.urlInputWidthThreshold)
      | none => false)

/-- The level `updateLevelByURL` computes from a trimmed, non-empty URL. -/
def levelOf (url : JSString) : Nat :=
  (matchSlashes (replaceTrailingSlash (replaceScheme url))).length

/-- The colour `#d4f7d4` of the transient highlight. -/
def pulseColor : JSString := "#d4f7d4".toList

/-- The function `updateLevelByURL(urlInput)` with `urlInput` the field at position `i`. -/
def updateLevelByURL (i : Nat) (s : State) : State :=
  match s.fields[i]? with
  | none => s
  | some urlInput =>
    if urlInput.offsetWidth ≤ s.config.urlInputWidthThreshold then s
    else
      match urlInput.rows.head? with
      | none => s
      | some row =>
        if (urlInputs s.config row s.fields).length = 0 ∨
            (levelInputs s.config row s.fields).length = 0 then s
        else
          match (levelInputs s.config row s.fields)[0]? with
          | none => s
          | some levelInput =>
            let url := trim urlInput.value
            if url = [] then
              { s with fields := modifyAt (fun f => { f with value := [] }) levelInput s.fields
                       derived := s.derived ++ [(levelInput, [])] }
            else
              let level := levelOf url
              let s1 : State :=
                { s with
                  fields := modifyAt (fun f => { f with value := numberToString level })
                    levelInput s.fields
                  derived := s.derived ++ [(levelInput, numberToString level)] }
              let s2 := dispatchInput levelInput
                { s1 with dispatched := s1.dispatched ++ [levelInput] }
              let originalColor :=
                match s2.fields[levelInput]? with
                | some f => f.backgroundColor
                | none => []
              let s3 : State :=
                { s2 with
                  fields :=
                    modifyAt (fun f => { f with backgroundColor := pulseColor })
                      levelInput s2.fields }
              setTimeout (Callback.revert levelInput originalColor) 1000 s3

/-- The body of the debounce callback: `checkForDuplicates(inputElement)` then
`updateLevelByURL(inputElement)`. -/
def evaluate (toLowerCase : JSString → JSString) (inputElement : Nat) (s : State) : State :=
  updateLevelByURL inputElement
    (checkForDuplicatesAt toLowerCase inputElement
      { s with evaluations := s.evaluations ++ [inputElement] }).1

/-- Run a timer's closure. -/
def runCallback (toLowerCase : JSString → JSString) (cb : Callback) (s : State) : State :=
  match cb with
  | Callback.check inputElement => evaluate toLowerCase inputElement s
  | Callback.revert levelInput originalColor =>
    { s with
      fields :=
        modifyAt
          (fun f => { f with backgroundColor := if originalColor = [] then [] else originalColor })
          levelInput s.fields }
  | Callback.hide => { s with visible := false }

/-- The change handler of the `case-sensitive` checkbox. -/
def caseSensitiveChange (checked : Bool) (s : State) : State :=
  { s with config := { s.config with caseSensitive := checked }, inputHistory := [] }

/-- The page when the script starts: no history, no timer. -/
def initialState (cfg : Config) (fields : List Field) : State :=
  { config := cfg, inputHistory := [], checkTimeout := none, fields := fields, timers := []
    nextTimer := 1, now := 0, visible := false, notifications := [], handled := []
    evaluations := [], derived := [], dispatched := [] }

/-- Whether a timer is a debounce timer. -/
def isCheck (t : Timer) : Bool :=
  match t.callback with
  | Callback.check _ => true
  | _ => false

/-- The pending debounce timers. -/
def pendingChecks (s : State) : List Timer :=
  s.timers.filter isCheck

/-! ## Submission -/

/-- The loop `inputs.forEach(...)` of `handleSubmit` over the page's fields in document
order, with `currentValues` and `hasDuplicates` threaded through; a field outside the
submitted form is not among `inputs` and is passed over. -/
def submitLoop (toLowerCase : JSString → JSString) (cfg : Config) (form : Nat) :
    List Field → List JSString → Bool → List Field × List JSString × Bool
  | [], currentValues, hasDuplicates => ([], currentValues, hasDuplicates)
  | input :: rest, currentValues, hasDuplicates =>
    if input.form ≠ some form then
      let r := submitLoop toLowerCase cfg form rest currentValues hasDuplicates
      (input :: r.1, r.2)
    else if cfg.urlInputWidthThreshold < input.offsetWidth then
      let value := normalized toLowerCase cfg input
      if trim value ≠ [] ∧ value ∈ currentValues then
        let r := submitLoop toLowerCase cfg form rest currentValues true
        ({ input with backgroundColor := cfg.highlightColor } :: r.1, r.2)
      else
        let r := submitLoop toLowerCase cfg form rest (setAdd currentValues value) hasDuplicates
        (input :: r.1, r.2)
    else
      let r := submitLoop toLowerCase cfg form rest currentValues hasDuplicates
      ({ input with backgroundColor := cfg.normalColor } :: r.1, r.2)

/-- The message of a blocked submission. -/
def submitMessage : JSString := "表单中包含重复内容，请检查！".toList

/-- The function `handleSubmit(event)` with `event.target` the form `form`; the boolean
tells whether `event.preventDefault()` was called. -/
def handleSubmit (toLowerCase : JSString → JSString) (form : Nat) (s : State) : State × Bool :=
  if !s.config.checkOnSubmit then (s, false)
  else
    let r := submitLoop toLowerCase s.config form s.fields [] false
    let s1 : State := { s with fields := r.1 }
    if r.2.2 then (notify submitMessage s1, true) else (s1, false)

/-! ## Attachment -/

/-- The two statements `input.addEventListener('input', handleInput)` and
`input.dataset.listenerAdded = 'true'`. -/
def attach (input : Field) : Field :=
  { input with listeners := input.listeners + 1, listenerAdded := true }

/-- The scan at the end of `addInputListeners`: every field of the document is attached. -/
def initialScan (fields : List Field) : List Field :=
  fields.map attach

/-- A mutation record: for each added node, the text-capable fields of its subtree. -/
structure MutationRecord where
  addedNodes : List (List Field)
deriving DecidableEq, Repr

/-- The callback of the `MutationObserver`. -/
def observerCallback (mutations : List MutationRecord) (fields : List Field) : List Field :=
  mutations.foldl
    (fun fs mutation =>
      if mutation.addedNodes.length ≠ 0 then
        fs.map (fun input => if !input.listenerAdded then attach input else input)
      else fs)
    fields

/-- A field the page has created from scratch: no marker, no listener. -/
def fresh (f : Field) : Field :=
  { f with listenerAdded := false, listeners := 0 }

/-- The fields a batch of mutations brings into the document, as they arrive: a field
cloned from an attached one, or parsed from its markup, carries the marker
`data-listener-added` without the listener. -/
def addedFields (mutations : List MutationRecord) : List Field :=
  (mutations.map (fun m => m.addedNodes.flatten)).flatten

/-- One batch: the page inserts the new fields, then the observer's callback runs. -/
def mutationBatch (fields : List Field) (mutations : List MutationRecord) : List Field :=
  observerCallback mutations (fields ++ addedFields mutations)

/-- The document after `addInputListeners` and a sequence of mutation batches, starting
from the document as the script finds it. -/
def observe (document : List Field) (batches : List (List MutationRecord)) : List Field :=
  batches.foldl mutationBatch (initialScan document)

/-- The `inputHistory` a sequence of detector calls leaves. -/
def historyAfter (toLowerCase : JSString → JSString) (cfg : Config) :
    List JSString → List Field → List JSString
  | inputHistory, [] => inputHistory
  | inputHistory, el :: rest =>
    historyAfter toLowerCase cfg (checkForDuplicates toLowerCase cfg inputHistory el).inputHistory rest

/-- A field of the given width and value, outside any row and form, with the listener
attached. -/
def fieldOf (width : Nat) (value : String) : Field :=
  { offsetWidth := width, value := value.toList, backgroundColor := [], rows := []
    form := none, listenerAdded := true, listeners := 1 }

/-- The change handler of the `check-submit` checkbox. -/
def checkSubmitChange (checked : Bool) (s : State) : State :=
  { s with config := { s.config with checkOnSubmit := checked } }

/-- The change handler of the `show-notification` checkbox. -/
def showNotificationChange (checked : Bool) (s : State) : State :=
  { s with config := { s.config with showNotification := checked } }

/-- The click handler of the `clear-history` button. -/
def clearHistoryClick (s : State) : State :=
  notify "历史记录已清除".toList
    { s with
      inputHistory := []
      fields := s.fields.map (fun el => { el with backgroundColor := s.config.normalColor }) }

/-- What happens on the page: the user edits a field (its value changes and an `input`
event is delivered), time passes, the pending timer at position `k` of the timer table
fires (never before it is due), one of the three checkboxes changes, the history is
cleared, a form is submitted, a field is resized by a reflow, or the page inserts
nodes. -/
inductive Event where
  | edit (target : Nat) (value : JSString)
  | advance (dt : Nat)
  | fire (k : Nat)
  | caseSensitive (checked : Bool)
  | checkSubmit (checked : Bool)
  | showNotification (checked : Bool)
  | clearHistory
  | submit (form : Nat)
  | resize (target : Nat) (width : Nat)
  | mutation (mutations : List MutationRecord)
deriving DecidableEq, Repr

/-- One event; `none` when a timer is asked to fire that is not pending or not due. -/
def step (toLowerCase : JSString → JSString) (s : State) : Event → Option State
  | Event.edit target value =>
    some (dispatchInput target
      { s with fields := modifyAt (fun f => { f with value := value }) target s.fields })
  | Event.advance dt => some { s with now := s.now + dt }
  | Event.fire k =>
    match s.timers[k]? with
    | none => none
    | some t =>
      if t.due ≤ s.now then
        some (runCallback toLowerCase t.callback { s with timers := s.timers.eraseIdx k })
      else none
  | Event.caseSensitive checked => some (caseSensitiveChange checked s)
  | Event.checkSubmit checked => some (checkSubmitChange checked s)
  | Event.showNotification checked => some (showNotificationChange checked s)
  | Event.clearHistory => some (clearHistoryClick s)
  | Event.submit form => some (handleSubmit toLowerCase form s).1
  | Event.resize target width =>
    some { s with
      fields := modifyAt (fun f => { f with offsetWidth := width }) target s.fields }
  | Event.mutation mutations => some { s with fields := mutationBatch s.fields mutations }

/-- A sequence of events. -/
def run (toLowerCase : JSString → JSString) : State → List Event → Option State
  | s, [] => some s
  | s, e :: es =>
    match step toLowerCase s e with
    | none => none
    | some s1 => run toLowerCase s1 es

/-- The scan of the observer's callback: attach the fields without the marker. -/
def rescan (fields : List Field) : List Field :=
  fields.map (fun input => if !input.listenerAdded then attach input else input)

/-- The field at position `j` is a content field of the form whose normalized value is
not blank and is in `seen` or is the normalized value of an earlier content field of the
form. -/
def repeatsSeen (toLowerCase : JSString → JSString) (cfg : Config) (form : Nat)
    (seen : List JSString) (fields : List Field) (j : Nat) : Prop :=
  ∃ f, fields[j]? = some f ∧ f.form = some form ∧ cfg.urlInputWidthThreshold < f.offsetWidth ∧
    trim (normalized toLowerCase cfg f) ≠ [] ∧
    (normalized toLowerCase cfg f ∈ seen ∨
      ∃ i g, i < j ∧ fields[i]? = some g ∧ g.form = some form ∧
        cfg.urlInputWidthThreshold < g.offsetWidth ∧
        normalized toLowerCase cfg g = normalized toLowerCase cfg f)

/-- The field at position `j` is a content field of the form whose normalized value is
not blank and equals the normalized value of an earlier content field of the form. -/
def repeats (toLowerCase : JSString → JSString) (cfg : Config) (form : Nat)
    (fields : List Field) (j : Nat) : Prop :=
  ∃ f, fields[j]? = some f ∧ f.form = some form ∧ cfg.urlInputWidthThreshold < f.offsetWidth ∧
    trim (normalized toLowerCase cfg f) ≠ [] ∧
    ∃ i g, i < j ∧ fields[i]? = some g ∧ g.form = some form ∧
      cfg.urlInputWidthThreshold < g.offsetWidth ∧
      normalized toLowerCase cfg g = normalized toLowerCase cfg f

/-- A field of row 0 and form 0 with the listener attached. -/
def rowField (width : Nat) (value : String) : Field :=
  { offsetWidth := width, value := value.toList, backgroundColor := [], rows := [0]
    form := some 0, listenerAdded := true, listeners := 1 }

/-- The form of the submission scenario: content fields valued `x`, `y`, `x` and one
level field. -/
def exampleForm : List Field :=
  [rowField 200 "x", rowField 200 "y", rowField 200 "x", rowField 100 "1"]

/-- The set `currentValues` after the loop has passed the field `a`. -/
def seenAfter (toLowerCase : JSString → JSString) (cfg : Config) (form : Nat)
    (seen : List JSString) (a : Field) : List JSString :=
  if a.form = some form ∧ cfg.urlInputWidthThreshold < a.offsetWidth then
    setAdd seen (normalized toLowerCase cfg a)
  else seen

/-- The level field `updateLevelByURL` writes to when it is called on the field at
position `i`: the first level field of the closest row of a content field. -/
def derivedTarget (s : State) (i : Nat) : Option Nat :=
  match s.fields[i]? with
  | none => none
  | some urlInput =>
    if urlInput.offsetWidth ≤ s.config.urlInputWidthThreshold then none
    else
      match urlInput.rows.head? with
      | none => none
      | some row => (levelInputs s.config row s.fields)[0]?

/-- The value the specification gives the level field for the URL field's value `u`:
empty when the trimmed value is empty, else the decimal numeral of the number of `/` left
after a leading `http://` or `https://` and then one trailing `/` are removed. -/
def specLevelText (u : JSString) : JSString :=
  let t := trim u
  if t = [] then []
  else
    let t1 :=
      if "http://".toList <+: t then t.drop 7
      else if "https://".toList <+: t then t.drop 8
      else t
    let t2 := if t1.getLast? = some '/' then t1.dropLast else t1
    (Nat.repr (t2.count '/')).toList

/-- A row of one URL field valued `u` and one level field valued `9`. -/
def exampleRow (u : String) : State :=
  initialState CONFIG [rowField 200 u, rowField 100 "9"]

/-- Every pending debounce timer is the one `checkTimeout` names. -/
def Owned (s : State) : Prop :=
  ∀ tm ∈ pendingChecks s, s.checkTimeout = some tm.id

/-- What the layout of the page fixes for the engine: each field's width, rows and
listener count. -/
def layout (s : State) : List (Nat × List Nat × Nat) :=
  s.fields.map (fun f => (f.offsetWidth, f.rows, f.listeners))

/-- The events in which no user takes part: time passing and timers firing. -/
def timerEvent : Event → Bool
  | Event.advance _ => true
  | Event.fire _ => true
  | _ => false

/-- The events that leave the page's fields and layout alone: every event but an edit, a
reflow that resizes a field, and an insertion of nodes. -/
def steady : Event → Bool
  | Event.edit _ _ => false
  | Event.resize _ _ => false
  | Event.mutation _ => false
  | _ => true

/-- The time an event lets pass. -/
def elapsed : Event → Nat
  | Event.advance dt => dt
  | _ => 0

/-- At most one debounce timer is pending; it is the one `checkTimeout` names and its
target is the target of the latest `handleInput` call. -/
def Coordinated (s : State) : Prop :=
  pendingChecks s = [] ∨
    ∃ tm target, pendingChecks s = [tm] ∧ s.checkTimeout = some tm.id ∧
      tm.callback = Callback.check target ∧ s.handled.getLast? = some target

/-- The states an edit of the field `B` in the state `s` can lead to while no field is
edited or resized and no node inserted, `due` being the time the edit's debounce timer is
due: the layout, the width threshold and the debounce delay are those of `s`, and either nothing was evaluated yet and the edit's timer is the one
pending debounce timer; or `B` was evaluated, with at most one level written and one
event dispatched, and the only debounce timer that may be pending is one for the level
field of the row of `B`; or that level field was evaluated after `B` and no debounce timer
is pending. -/
def After (s : State) (B due : Nat) (s1 : State) : Prop :=
  layout s1 = layout s ∧
  (s1.config.urlInputWidthThreshold = s.config.urlInputWidthThreshold ∧
    s1.config.checkDelay = s.config.checkDelay) ∧
  ((s1.evaluations = s.evaluations ∧ s1.derived = s.derived ∧ s1.dispatched = s.dispatched ∧
      ∃ n, pendingChecks s1 = [{ id := n, due := due, callback := Callback.check B }] ∧
        s1.checkTimeout = some n) ∨
    ((∃ ws, s1.derived = s.derived ++ ws ∧ ws.length ≤ 1) ∧
      (∃ ds, s1.dispatched = s.dispatched ++ ds ∧ ds.length ≤ 1) ∧
      ((s1.evaluations = s.evaluations ++ [B] ∧
          (pendingChecks s1 = [] ∨
            ∃ L n d, derivedTarget s B = some L ∧
              pendingChecks s1 = [{ id := n, due := d, callback := Callback.check L }] ∧
              s1.checkTimeout = some n)) ∨
        (∃ L, derivedTarget s B = some L ∧ s1.evaluations = s.evaluations ++ [B, L] ∧
          pendingChecks s1 = []))))

/-- The states in which the debounce timer of an edit of `B` made in `s` is still
pending: nothing has been evaluated, written or dispatched since. -/
def Waiting (s : State) (B due : Nat) (s1 : State) : Prop :=
  layout s1 = layout s ∧
  (s1.config.urlInputWidthThreshold = s.config.urlInputWidthThreshold ∧
    s1.config.checkDelay = s.config.checkDelay) ∧
  s1.evaluations = s.evaluations ∧
  s1.derived = s.derived ∧ s1.dispatched = s.dispatched ∧
  ∃ n, pendingChecks s1 = [{ id := n, due := due, callback := Callback.check B }] ∧
    s1.checkTimeout = some n

/-- The page of the debounce scenario: a URL field and a level field in one row, and a
content field outside the row. -/
def examplePage : State :=
  initialState CONFIG [rowField 200 "", rowField 100 "", fieldOf 200 ""]

/-- The page of the reflow scenario: a URL field and two level fields in one row, and a
content field outside the row. -/
def reflowPage : State :=
  initialState CONFIG [rowField 200 "", rowField 100 "", rowField 100 "", fieldOf 200 ""]

/-- The row of the deriver scenario after `updateLevelByURL` has run on the URL field
once. -/
def derivedOnce : State :=
  updateLevelByURL 0 (exampleRow "a.com/x")

/-- The row of the deriver scenario after `updateLevelByURL` has run on the URL field
twice in a row. -/
def derivedTwice : State :=
  updateLevelByURL 0 (updateLevelByURL 0 (exampleRow "a.com/x"))

/-! ## The detector -/

theorem mem_setAdd (h : List JSString) (v x : JSString) :
    x ∈ setAdd h v ↔ x ∈ h ∨ x = v := by
  unfold setAdd
  split
  · constructor
    · intro hx; exact Or.inl hx
    · rintro (hx | rfl)
      · exact hx
      · assumption
  · simp

theorem setAdd_of_mem (h : List JSString) (v : JSString) (hv : v ∈ h) : setAdd h v = h := by
  simp [setAdd, hv]

theorem checkForDuplicates_level (toLowerCase : JSString → JSString) (cfg : Config)
    (h : List JSString) (el : Field) (hw : el.offsetWidth ≤ cfg.urlInputWidthThreshold) :
    checkForDuplicates toLowerCase cfg h el =
      { element := { el with backgroundColor := cfg.normalColor }
        inputHistory := h, notifications := [], result := false } := by
  simp [checkForDuplicates, hw]

theorem checkForDuplicates_blank (toLowerCase : JSString → JSString) (cfg : Config)
    (h : List JSString) (el : Field) (hb : trim (normalized toLowerCase cfg el) = []) :
    checkForDuplicates toLowerCase cfg h el =
      { element := { el with backgroundColor := cfg.normalColor }
        inputHistory := h, notifications := [], result := false } := by
  unfold checkForDuplicates
  split
  · rfl
  · simp [hb]

theorem checkForDuplicates_seen (toLowerCase : JSString → JSString) (cfg : Config)
    (h : List JSString) (el : Field) (hw : cfg.urlInputWidthThreshold < el.offsetWidth)
    (hb : trim (normalized toLowerCase cfg el) ≠ [])
    (hm : normalized toLowerCase cfg el ∈ h) :
    checkForDuplicates toLowerCase cfg h el =
      { element := { el with backgroundColor := cfg.highlightColor }
        inputHistory := h
        notifications :=
          showNotification cfg ("检测到重复内容: \"".toList ++ el.value ++ "\"".toList)
        result := true } := by
  simp [checkForDuplicates, Nat.not_le.mpr hw, hb, hm]

theorem checkForDuplicates_new (toLowerCase : JSString → JSString) (cfg : Config)
    (h : List JSString) (el : Field) (hw : cfg.urlInputWidthThreshold < el.offsetWidth)
    (hb : trim (normalized toLowerCase cfg el) ≠ [])
    (hm : normalized toLowerCase cfg el ∉ h) :
    checkForDuplicates toLowerCase cfg h el =
      { element := { el with backgroundColor := cfg.normalColor }
        inputHistory := setAdd h (normalized toLowerCase cfg el)
        notifications := [], result := false } := by
  simp [checkForDuplicates, Nat.not_le.mpr hw, hb, hm]

/-- The history after a call holds what it held before, and at most the field's
normalized value besides, which is then not blank. -/
theorem checkForDuplicates_history (toLowerCase : JSString → JSString) (cfg : Config)
    (h : List JSString) (el : Field) (x : JSString)
    (hx : x ∈ (checkForDuplicates toLowerCase cfg h el).inputHistory) :
    x ∈ h ∨ (x = normalized toLowerCase cfg el ∧ trim x ≠ []) := by
  by_cases hw : el.offsetWidth ≤ cfg.urlInputWidthThreshold
  · rw [checkForDuplicates_level _ _ _ _ hw] at hx
    exact Or.inl hx
  · by_cases hb : trim (normalized toLowerCase cfg el) = []
    · rw [checkForDuplicates_blank _ _ _ _ hb] at hx
      exact Or.inl hx
    · by_cases hm : normalized toLowerCase cfg el ∈ h
      · rw [checkForDuplicates_seen _ _ _ _ (Nat.not_le.mp hw) hb hm] at hx
        exact Or.inl hx
      · rw [checkForDuplicates_new _ _ _ _ (Nat.not_le.mp hw) hb hm] at hx
        rcases (mem_setAdd _ _ _).mp hx with hx | rfl
        · exact Or.inl hx
        · exact Or.inr ⟨rfl, hb⟩

theorem checkForDuplicates_history_mono (toLowerCase : JSString → JSString) (cfg : Config)
    (h : List JSString) (el : Field) (x : JSString) (hx : x ∈ h) :
    x ∈ (checkForDuplicates toLowerCase cfg h el).inputHistory := by
  unfold checkForDuplicates
  split
  · exact hx
  · simp only
    split
    · exact hx
    · split
      · exact hx
      · exact (mem_setAdd _ _ _).mpr (Or.inl hx)

theorem checkSequence_no_blank (toLowerCase : JSString → JSString) (cfg : Config)
    (calls : List Field) :
    ∀ (h : List JSString), (∀ x ∈ h, trim x ≠ []) →
      ∀ r ∈ checkSequence toLowerCase cfg h calls, ∀ x ∈ r.inputHistory, trim x ≠ [] := by
  induction calls with
  | nil => intro h _ r hr; simp [checkSequence] at hr
  | cons el rest ih =>
    intro h hh r hr x hx
    have hstep : ∀ y ∈ (checkForDuplicates toLowerCase cfg h el).inputHistory, trim y ≠ [] := by
      intro y hy
      rcases checkForDuplicates_history _ _ _ _ _ hy with hy | ⟨_, hy⟩
      · exact hh y hy
      · exact hy
    simp only [checkSequence, List.mem_cons] at hr
    rcases hr with rfl | hr
    · exact hstep x hx
    · exact ih _ hstep r hr x hx

theorem checkSequence_getElem? (toLowerCase : JSString → JSString) (cfg : Config)
    (calls : List Field) :
    ∀ (h : List JSString) (i : Nat),
      (checkSequence toLowerCase cfg h calls)[i]? =
        calls[i]?.map (checkForDuplicates toLowerCase cfg
          (historyAfter toLowerCase cfg h (calls.take i))) := by
  induction calls with
  | nil => intro h i; simp [checkSequence]
  | cons el rest ih =>
    intro h i
    cases i with
    | zero => simp [checkSequence, historyAfter]
    | succ n => simp [checkSequence, historyAfter, ih]

theorem historyAfter_mono (toLowerCase : JSString → JSString) (cfg : Config)
    (calls : List Field) :
    ∀ (h : List JSString) (x : JSString), x ∈ h → x ∈ historyAfter toLowerCase cfg h calls := by
  induction calls with
  | nil => intro h x hx; exact hx
  | cons el rest ih =>
    intro h x hx
    exact ih _ x (checkForDuplicates_history_mono _ _ _ _ _ hx)

theorem historyAfter_not_mem (toLowerCase : JSString → JSString) (cfg : Config)
    (v : JSString) (calls : List Field) :
    ∀ (h : List JSString), v ∉ h → (∀ e ∈ calls, normalized toLowerCase cfg e ≠ v) →
      v ∉ historyAfter toLowerCase cfg h calls := by
  induction calls with
  | nil => intro h hv _; exact hv
  | cons el rest ih =>
    intro h hv hne
    apply ih
    · intro hmem
      rcases checkForDuplicates_history _ _ _ _ _ hmem with hmem | ⟨heq, _⟩
      · exact hv hmem
      · exact hne el (List.mem_cons_self _ _) heq.symm
    · intro e he
      exact hne e (List.mem_cons_of_mem _ he)

theorem historyAfter_mem (toLowerCase : JSString → JSString) (cfg : Config)
    (v : JSString) (hv : trim v ≠ []) (calls : List Field)
    (hc : ∀ e ∈ calls, cfg.urlInputWidthThreshold < e.offsetWidth) :
    ∀ (h : List JSString), (∃ e ∈ calls, normalized toLowerCase cfg e = v) →
      v ∈ historyAfter toLowerCase cfg h calls := by
  induction calls with
  | nil => intro h ⟨e, he, _⟩; simp at he
  | cons el rest ih =>
    intro h ⟨e, he, hev⟩
    rcases List.mem_cons.mp he with rfl | he
    · show v ∈ historyAfter toLowerCase cfg
        (checkForDuplicates toLowerCase cfg h e).inputHistory rest
      apply historyAfter_mono
      have hw := hc e (List.mem_cons_self _ _)
      by_cases hm : normalized toLowerCase cfg e ∈ h
      · rw [checkForDuplicates_seen _ _ _ _ hw (hev ▸ hv) hm]
        exact hev ▸ hm
      · rw [checkForDuplicates_new _ _ _ _ hw (hev ▸ hv) hm]
        exact (mem_setAdd _ _ _).mpr (Or.inr hev.symm)
    · exact ih (fun x hx => hc x (List.mem_cons_of_mem _ hx)) _ ⟨e, he, hev⟩

/-- C3. For a non-blank normalized value `v`: a detector call on a content field whose
normalized value is `v` returns false, sets the normal colour and appends `v` to the
history when `v` is not in it, and returns true, sets the highlight colour and leaves the
history alone when `v` is in it.  Hence in a sequence of detector calls on content fields
from a history without `v`, the first call that produces `v` is not highlighted and every
later call that produces `v` is marked duplicate. -/
theorem checkForDuplicates_first_then_duplicate (toLowerCase : JSString → JSString)
    (cfg : Config) (v : JSString) (h : List JSString) (calls : List Field)
    (hv : trim v ≠ []) (hh : v ∉ h)
    (hc : ∀ e ∈ calls, cfg.urlInputWidthThreshold < e.offsetWidth) :
    (∀ (h0 : List JSString) (el : Field), cfg.urlInputWidthThreshold < el.offsetWidth →
        normalized toLowerCase cfg el = v →
        (v ∉ h0 →
          (checkForDuplicates toLowerCase cfg h0 el).result = false ∧
          (checkForDuplicates toLowerCase cfg h0 el).element =
            { el with backgroundColor := cfg.normalColor } ∧
          (checkForDuplicates toLowerCase cfg h0 el).inputHistory = h0 ++ [v]) ∧
        (v ∈ h0 →
          (checkForDuplicates toLowerCase cfg h0 el).result = true ∧
          (checkForDuplicates toLowerCase cfg h0 el).element =
            { el with backgroundColor := cfg.highlightColor } ∧
          (checkForDuplicates toLowerCase cfg h0 el).inputHistory = h0)) ∧
    (∀ (i : Nat) (el : Field), calls[i]? = some el → normalized toLowerCase cfg el = v →
        ((∀ k e, k < i → calls[k]? = some e → normalized toLowerCase cfg e ≠ v) →
          ∃ r, (checkSequence toLowerCase cfg h calls)[i]? = some r ∧ r.result = false ∧
            r.element = { el with backgroundColor := cfg.normalColor }) ∧
        ((∃ k e, k < i ∧ calls[k]? = some e ∧ normalized toLowerCase cfg e = v) →
          ∃ r, (checkSequence toLowerCase cfg h calls)[i]? = some r ∧ r.result = true ∧
            r.element = { el with backgroundColor := cfg.highlightColor })) := by
  constructor
  · intro h0 el hw hn
    constructor
    · intro hm
      rw [checkForDuplicates_new _ _ _ _ hw (hn ▸ hv) (hn ▸ hm)]
      simp [setAdd, hn, hm]
    · intro hm
      rw [checkForDuplicates_seen _ _ _ _ hw (hn ▸ hv) (hn ▸ hm)]
      simp
  · intro i el hi hn
    have hw : cfg.urlInputWidthThreshold < el.offsetWidth := hc el (List.getElem?_mem hi)
    constructor
    · intro hfirst
      refine ⟨_, by rw [checkSequence_getElem?, hi]; rfl, ?_⟩
      have hnot : v ∉ historyAfter toLowerCase cfg h (calls.take i) := by
        apply historyAfter_not_mem _ _ _ _ _ hh
        intro e he
        obtain ⟨k, hk⟩ := List.getElem?_of_mem he
        have hki : k < i := by
          by_contra hge
          rw [List.getElem?_take_eq_none (Nat.not_lt.mp hge)] at hk
          cases hk
        rw [List.getElem?_take_of_lt hki] at hk
        exact hfirst k e hki hk
      rw [checkForDuplicates_new _ _ _ _ hw (hn ▸ hv) (hn ▸ hnot)]
      exact ⟨rfl, rfl⟩
    · rintro ⟨k, e, hki, hk, hev⟩
      refine ⟨_, by rw [checkSequence_getElem?, hi]; rfl, ?_⟩
      have hmem : v ∈ historyAfter toLowerCase cfg h (calls.take i) := by
        apply historyAfter_mem _ _ _ hv
        · intro x hx
          exact hc x (List.mem_of_mem_take hx)
        · refine ⟨e, ?_, hev⟩
          apply List.getElem?_mem (n := k)
          rw [List.getElem?_take_of_lt hki]
          exact hk
      rw [checkForDuplicates_seen _ _ _ _ hw (hn ▸ hv) (hn ▸ hmem)]
      exact ⟨rfl, rfl⟩

/-- C3 at the calls `x`, `y`, `x`: the third is a duplicate. -/
theorem checkForDuplicates_first_then_duplicate_witness :
    ∃ r, (checkSequence toLowerCaseASCII CONFIG []
        [fieldOf 200 "x", fieldOf 200 "y", fieldOf 200 "x"])[2]? = some r ∧ r.result = true ∧
      r.element = { fieldOf 200 "x" with backgroundColor := CONFIG.highlightColor } :=
  ((checkForDuplicates_first_then_duplicate toLowerCaseASCII CONFIG "x".toList []
      [fieldOf 200 "x", fieldOf 200 "y", fieldOf 200 "x"]
      (by decide) (by decide) (by decide)).2 2 (fieldOf 200 "x") rfl rfl).2
    ⟨0, fieldOf 200 "x", by decide, rfl, rfl⟩

/-- C4, as the code has it. Two detector calls in a row on an unchanged field leave the
same history, and a third call repeats the second.  The two calls agree when the field is
a level field, is blank, or its normalized value was in the history before the first
call; on a content field with a non-blank value new to the history the first call returns
false with the normal colour and the second returns true with the highlight colour. -/
theorem checkForDuplicates_twice (toLowerCase : JSString → JSString) (cfg : Config)
    (h : List JSString) (el : Field) :
    (checkForDuplicates toLowerCase cfg
        (checkForDuplicates toLowerCase cfg h el).inputHistory
        (checkForDuplicates toLowerCase cfg h el).element).inputHistory =
      (checkForDuplicates toLowerCase cfg h el).inputHistory ∧
    checkForDuplicates toLowerCase cfg
        (checkForDuplicates toLowerCase cfg
          (checkForDuplicates toLowerCase cfg h el).inputHistory
          (checkForDuplicates toLowerCase cfg h el).element).inputHistory
        (checkForDuplicates toLowerCase cfg
          (checkForDuplicates toLowerCase cfg h el).inputHistory
          (checkForDuplicates toLowerCase cfg h el).element).element =
      checkForDuplicates toLowerCase cfg
        (checkForDuplicates toLowerCase cfg h el).inputHistory
        (checkForDuplicates toLowerCase cfg h el).element ∧
    ((el.offsetWidth ≤ cfg.urlInputWidthThreshold ∨ trim (normalized toLowerCase cfg el) = [] ∨
        normalized toLowerCase cfg el ∈ h) →
      checkForDuplicates toLowerCase cfg
          (checkForDuplicates toLowerCase cfg h el).inputHistory
          (checkForDuplicates toLowerCase cfg h el).element =
        checkForDuplicates toLowerCase cfg h el) ∧
    ((cfg.urlInputWidthThreshold < el.offsetWidth ∧ trim (normalized toLowerCase cfg el) ≠ [] ∧
        normalized toLowerCase cfg el ∉ h) →
      (checkForDuplicates toLowerCase cfg h el).result = false ∧
      (checkForDuplicates toLowerCase cfg h el).element.backgroundColor = cfg.normalColor ∧
      (checkForDuplicates toLowerCase cfg
          (checkForDuplicates toLowerCase cfg h el).inputHistory
          (checkForDuplicates toLowerCase cfg h el).element).result = true ∧
      (checkForDuplicates toLowerCase cfg
          (checkForDuplicates toLowerCase cfg h el).inputHistory
          (checkForDuplicates toLowerCase cfg h el).element).element.backgroundColor =
        cfg.highlightColor) := by
  by_cases hw : el.offsetWidth ≤ cfg.urlInputWidthThreshold
  · have e1 := checkForDuplicates_level toLowerCase cfg h el hw
    have e2 := checkForDuplicates_level toLowerCase cfg h
      { el with backgroundColor := cfg.normalColor } hw
    simp only [e1, e2]
    refine ⟨trivial, trivial, fun _ => trivial, fun hc => absurd hw (Nat.not_le.mpr hc.1)⟩
  · by_cases hb : trim (normalized toLowerCase cfg el) = []
    · have e1 := checkForDuplicates_blank toLowerCase cfg h el hb
      have e2 := checkForDuplicates_blank toLowerCase cfg h
        { el with backgroundColor := cfg.normalColor } hb
      simp only [e1, e2]
      refine ⟨trivial, trivial, fun _ => trivial, fun hc => absurd hb hc.2.1⟩
    · by_cases hm : normalized toLowerCase cfg el ∈ h
      · have e1 := checkForDuplicates_seen toLowerCase cfg h el (Nat.not_le.mp hw) hb hm
        have e2 := checkForDuplicates_seen toLowerCase cfg h
          { el with backgroundColor := cfg.highlightColor } (Nat.not_le.mp hw) hb hm
        simp only [e1, e2]
        refine ⟨trivial, trivial, fun _ => trivial, fun hc => absurd hm hc.2.2⟩
      · have e1 := checkForDuplicates_new toLowerCase cfg h el (Nat.not_le.mp hw) hb hm
        have hm2 : normalized toLowerCase cfg el ∈ setAdd h (normalized toLowerCase cfg el) :=
          (mem_setAdd _ _ _).mpr (Or.inr rfl)
        have e2 := checkForDuplicates_seen toLowerCase cfg
          (setAdd h (normalized toLowerCase cfg el))
          { el with backgroundColor := cfg.normalColor } (Nat.not_le.mp hw) hb hm2
        have e3 := checkForDuplicates_seen toLowerCase cfg
          (setAdd h (normalized toLowerCase cfg el))
          { el with backgroundColor := cfg.highlightColor } (Nat.not_le.mp hw) hb hm2
        simp only [e1, e2, e3]
        refine ⟨trivial, trivial, ?_, fun _ => ⟨trivial, trivial, trivial, trivial⟩⟩
        rintro (h1 | h1 | h1)
        · exact absurd h1 hw
        · exact absurd h1 hb
        · exact absurd h1 hm

/-- C4 as stated fails: on the content field valued `x` with an empty history, the first
call returns false and leaves the normal colour, the second returns true and sets the
highlight colour. -/
theorem checkForDuplicates_twice_differs :
    (checkForDuplicates toLowerCaseASCII CONFIG [] (fieldOf 200 "x")).result = false ∧
    (checkForDuplicates toLowerCaseASCII CONFIG
      (checkForDuplicates toLowerCaseASCII CONFIG [] (fieldOf 200 "x")).inputHistory
      (checkForDuplicates toLowerCaseASCII CONFIG [] (fieldOf 200 "x")).element).result = true ∧
    ¬ ((checkForDuplicates toLowerCaseASCII CONFIG
          (checkForDuplicates toLowerCaseASCII CONFIG [] (fieldOf 200 "x")).inputHistory
          (checkForDuplicates toLowerCaseASCII CONFIG [] (fieldOf 200 "x")).element).result =
        (checkForDuplicates toLowerCaseASCII CONFIG [] (fieldOf 200 "x")).result ∧
      (checkForDuplicates toLowerCaseASCII CONFIG
          (checkForDuplicates toLowerCaseASCII CONFIG [] (fieldOf 200 "x")).inputHistory
          (checkForDuplicates toLowerCaseASCII CONFIG [] (fieldOf 200 "x")).element).element.backgroundColor =
        (checkForDuplicates toLowerCaseASCII CONFIG [] (fieldOf 200 "x")).element.backgroundColor) := by
  decide

/-! ## Fields and timers -/

theorem length_modifyAt (g : Field → Field) (j : Nat) (l : List Field) :
    (modifyAt g j l).length = l.length := by
  induction l generalizing j with
  | nil => cases j <;> rfl
  | cons f fs ih =>
    cases j with
    | zero => rfl
    | succ n => simp [modifyAt, ih]

theorem getElem?_modifyAt (g : Field → Field) (j k : Nat) (l : List Field) :
    (modifyAt g j l)[k]? = if k = j then l[k]?.map g else l[k]? := by
  induction l generalizing j k with
  | nil => cases j <;> simp [modifyAt]
  | cons f fs ih =>
    cases j with
    | zero =>
      cases k with
      | zero => simp [modifyAt]
      | succ m => simp [modifyAt]
    | succ n =>
      cases k with
      | zero => simp [modifyAt]
      | succ m => simp [modifyAt, ih]

theorem getElem?_modifyAt_self (g : Field → Field) (j : Nat) (l : List Field) :
    (modifyAt g j l)[j]? = l[j]?.map g := by
  simp [getElem?_modifyAt]

theorem getElem?_modifyAt_ne (g : Field → Field) (j k : Nat) (l : List Field) (h : k ≠ j) :
    (modifyAt g j l)[k]? = l[k]? := by
  simp [getElem?_modifyAt, h]

theorem modifyAt_none (g : Field → Field) (j : Nat) (l : List Field) (h : l[j]? = none) :
    modifyAt g j l = l := by
  induction l generalizing j with
  | nil => cases j <;> rfl
  | cons f fs ih =>
    cases j with
    | zero => simp at h
    | succ n =>
      rw [List.getElem?_cons_succ] at h
      simp [modifyAt, ih n h]

/-- Any two field lists of which one is the other with one field touched without its
width or rows changing have the same widths and rows. -/
theorem map_modifyAt_of_eq {α : Type} (p : Field → α) (g : Field → Field) (j : Nat)
    (l : List Field) (h : ∀ f, p (g f) = p f) : (modifyAt g j l).map p = l.map p := by
  induction l generalizing j with
  | nil => cases j <;> rfl
  | cons f fs ih =>
    cases j with
    | zero => simp [modifyAt, h]
    | succ n => simp [modifyAt, ih]

/-! ## State lemmas -/

/-- What the notifications of a detector call leave of the state: only the timer table,
the timer counter and the notification element change, and no debounce timer is added. -/
theorem foldl_display (l : List JSString) :
    ∀ s : State,
      (l.foldl (fun st m => display m st) s).fields = s.fields ∧
      (l.foldl (fun st m => display m st) s).config = s.config ∧
      (l.foldl (fun st m => display m st) s).inputHistory = s.inputHistory ∧
      (l.foldl (fun st m => display m st) s).checkTimeout = s.checkTimeout ∧
      (l.foldl (fun st m => display m st) s).now = s.now ∧
      (l.foldl (fun st m => display m st) s).handled = s.handled ∧
      (l.foldl (fun st m => display m st) s).evaluations = s.evaluations ∧
      (l.foldl (fun st m => display m st) s).derived = s.derived ∧
      (l.foldl (fun st m => display m st) s).dispatched = s.dispatched ∧
      (l.foldl (fun st m => display m st) s).notifications = s.notifications ++ l ∧
      pendingChecks (l.foldl (fun st m => display m st) s) = pendingChecks s := by
  induction l with
  | nil => intro s; simp
  | cons m ms ih =>
    intro s
    obtain ⟨h1, h2, h3, h4, h5, h6, h7, h8, h9, h10, h11⟩ := ih (display m s)
    simp only [List.foldl_cons]
    refine ⟨h1, h2, h3, h4, h5, h6, h7, h8, h9, ?_, ?_⟩
    · rw [h10]; simp [display, setTimeout]
    · rw [h11]; simp [pendingChecks, display, setTimeout, isCheck]

theorem checkForDuplicatesAt_none (toLowerCase : JSString → JSString) (i : Nat) (s : State)
    (h : s.fields[i]? = none) : checkForDuplicatesAt toLowerCase i s = (s, false) := by
  simp [checkForDuplicatesAt, h]

theorem checkForDuplicatesAt_some (toLowerCase : JSString → JSString) (i : Nat) (s : State)
    (el : Field) (h : s.fields[i]? = some el) :
    checkForDuplicatesAt toLowerCase i s =
      ((checkForDuplicates toLowerCase s.config s.inputHistory el).notifications.foldl
          (fun st m => display m st)
          { s with
            fields := modifyAt
              (fun _ => (checkForDuplicates toLowerCase s.config s.inputHistory el).element)
              i s.fields
            inputHistory := (checkForDuplicates toLowerCase s.config s.inputHistory el).inputHistory },
       (checkForDuplicates toLowerCase s.config s.inputHistory el).result) := by
  simp [checkForDuplicatesAt, h]

theorem checkForDuplicatesAt_spec (toLowerCase : JSString → JSString) (i : Nat) (s : State)
    (el : Field) (h : s.fields[i]? = some el) :
    (checkForDuplicatesAt toLowerCase i s).2 =
      (checkForDuplicates toLowerCase s.config s.inputHistory el).result ∧
    (checkForDuplicatesAt toLowerCase i s).1.inputHistory =
      (checkForDuplicates toLowerCase s.config s.inputHistory el).inputHistory ∧
    (checkForDuplicatesAt toLowerCase i s).1.fields =
      modifyAt (fun _ => (checkForDuplicates toLowerCase s.config s.inputHistory el).element)
        i s.fields ∧
    (checkForDuplicatesAt toLowerCase i s).1.notifications =
      s.notifications ++ (checkForDuplicates toLowerCase s.config s.inputHistory el).notifications ∧
    (checkForDuplicatesAt toLowerCase i s).1.config = s.config ∧
    (checkForDuplicatesAt toLowerCase i s).1.checkTimeout = s.checkTimeout ∧
    (checkForDuplicatesAt toLowerCase i s).1.now = s.now ∧
    (checkForDuplicatesAt toLowerCase i s).1.handled = s.handled ∧
    (checkForDuplicatesAt toLowerCase i s).1.evaluations = s.evaluations ∧
    (checkForDuplicatesAt toLowerCase i s).1.derived = s.derived ∧
    (checkForDuplicatesAt toLowerCase i s).1.dispatched = s.dispatched ∧
    pendingChecks (checkForDuplicatesAt toLowerCase i s).1 = pendingChecks s := by
  rw [checkForDuplicatesAt_some toLowerCase i s el h]
  obtain ⟨h1, h2, h3, h4, h5, h6, h7, h8, h9, h10, h11⟩ :=
    foldl_display (checkForDuplicates toLowerCase s.config s.inputHistory el).notifications
      { s with
        fields := modifyAt
          (fun _ => (checkForDuplicates toLowerCase s.config s.inputHistory el).element)
          i s.fields
        inputHistory := (checkForDuplicates toLowerCase s.config s.inputHistory el).inputHistory }
  exact ⟨rfl, h3, h1, h10, h2, h4, h5, h6, h7, h8, h9, h11⟩

/-- The detector changes no field's value, width, rows, form or listeners. -/
theorem checkForDuplicates_element (toLowerCase : JSString → JSString) (cfg : Config)
    (h : List JSString) (el : Field) :
    ∃ c, (checkForDuplicates toLowerCase cfg h el).element = { el with backgroundColor := c } := by
  unfold checkForDuplicates
  split
  · exact ⟨_, rfl⟩
  · simp only
    split
    · exact ⟨_, rfl⟩
    · split
      · exact ⟨_, rfl⟩
      · exact ⟨_, rfl⟩

theorem checkForDuplicatesAt_field (toLowerCase : JSString → JSString) (i k : Nat) (s : State)
    (f : Field) (hk : s.fields[k]? = some f) :
    ∃ c, (checkForDuplicatesAt toLowerCase i s).1.fields[k]? =
      some { f with backgroundColor := c } := by
  cases hi : s.fields[i]? with
  | none =>
    rw [checkForDuplicatesAt_none _ _ _ hi]
    exact ⟨f.backgroundColor, hk⟩
  | some el =>
    rw [(checkForDuplicatesAt_spec toLowerCase i s el hi).2.2.1, getElem?_modifyAt]
    by_cases hki : k = i
    · subst hki
      rw [hi] at hk
      cases hk
      obtain ⟨c, hc⟩ := checkForDuplicates_element toLowerCase s.config s.inputHistory f
      exact ⟨c, by simp [hi, hc]⟩
    · exact ⟨f.backgroundColor, by simp [hki, hk]⟩

/-- C7. The change handler of the case-sensitivity checkbox sets `CONFIG.caseSensitive`
to the new flag and empties `inputHistory`, leaving every other configuration field as it
was.  After a check of a content field valued `Foo` while case-sensitive, which puts
`Foo` in the history, and a switch to case-insensitive, the check of a content field
valued `foo` returns false and the check of a further content field valued `foo` returns
true. -/
theorem caseSensitiveChange_clears (toLowerCase : JSString → JSString) (s : State)
    (checked : Bool) (i j k : Nat) (f1 f2 f3 : Field)
    (hlow : toLowerCase "foo".toList = "foo".toList)
    (hcs : s.config.caseSensitive = true)
    (hi : s.fields[i]? = some f1) (v1 : f1.value = "Foo".toList)
    (w1 : s.config.urlInputWidthThreshold < f1.offsetWidth)
    (hj : s.fields[j]? = some f2) (v2 : f2.value = "foo".toList)
    (w2 : s.config.urlInputWidthThreshold < f2.offsetWidth)
    (hk : s.fields[k]? = some f3) (v3 : f3.value = "foo".toList)
    (w3 : s.config.urlInputWidthThreshold < f3.offsetWidth) :
    ((caseSensitiveChange checked s).config.caseSensitive = checked ∧
      (caseSensitiveChange checked s).inputHistory = [] ∧
      (caseSensitiveChange checked s).config.checkDelay = s.config.checkDelay ∧
      (caseSensitiveChange checked s).config.highlightColor = s.config.highlightColor ∧
      (caseSensitiveChange checked s).config.normalColor = s.config.normalColor ∧
      (caseSensitiveChange checked s).config.showNotification = s.config.showNotification ∧
      (caseSensitiveChange checked s).config.checkOnSubmit = s.config.checkOnSubmit ∧
      (caseSensitiveChange checked s).config.urlInputWidthThreshold =
        s.config.urlInputWidthThreshold) ∧
    "Foo".toList ∈ (checkForDuplicatesAt toLowerCase i s).1.inputHistory ∧
    (checkForDuplicatesAt toLowerCase j
        (caseSensitiveChange false (checkForDuplicatesAt toLowerCase i s).1)).2 = false ∧
    (checkForDuplicatesAt toLowerCase k
        (checkForDuplicatesAt toLowerCase j
          (caseSensitiveChange false (checkForDuplicatesAt toLowerCase i s).1)).1).2 = true := by
  refine ⟨⟨rfl, rfl, rfl, rfl, rfl, rfl, rfl, rfl⟩, ?_, ?_⟩
  · rw [(checkForDuplicatesAt_spec toLowerCase i s f1 hi).2.1]
    have hn1 : normalized toLowerCase s.config f1 = "Foo".toList := by
      simp only [normalized, hcs, v1, if_true]
    have hFoo : trim "Foo".toList ≠ [] := by decide
    by_cases hm : normalized toLowerCase s.config f1 ∈ s.inputHistory
    · rw [checkForDuplicates_seen _ _ _ _ w1 (by rw [hn1]; exact hFoo) hm]
      exact hn1 ▸ hm
    · rw [checkForDuplicates_new _ _ _ _ w1 (by rw [hn1]; exact hFoo) hm]
      exact (mem_setAdd _ _ _).mpr (Or.inr hn1.symm)
  have hcfg1 : (checkForDuplicatesAt toLowerCase i s).1.config = s.config :=
    (checkForDuplicatesAt_spec toLowerCase i s f1 hi).2.2.2.2.1
  obtain ⟨c2, hj1⟩ := checkForDuplicatesAt_field toLowerCase i j s f2 hj
  obtain ⟨c3, hk1⟩ := checkForDuplicatesAt_field toLowerCase i k s f3 hk
  generalize (checkForDuplicatesAt toLowerCase i s).1 = s1 at hcfg1 hj1 hk1
  have hj2 : (caseSensitiveChange false s1).fields[j]? = some { f2 with backgroundColor := c2 } :=
    hj1
  have hk2 : (caseSensitiveChange false s1).fields[k]? = some { f3 with backgroundColor := c3 } :=
    hk1
  have hthr : (caseSensitiveChange false s1).config.urlInputWidthThreshold =
      s.config.urlInputWidthThreshold := by
    show s1.config.urlInputWidthThreshold = _
    rw [hcfg1]
  have hcase : (caseSensitiveChange false s1).config.caseSensitive = false := rfl
  have hhist : (caseSensitiveChange false s1).inputHistory = [] := rfl
  generalize caseSensitiveChange false s1 = s2 at hj2 hk2 hthr hcase hhist
  have hfoo : trim "foo".toList ≠ [] := by decide
  have hn2 : normalized toLowerCase s2.config { f2 with backgroundColor := c2 } = "foo".toList := by
    simp only [normalized, hcase, v2]
    exact hlow
  obtain ⟨r1, r2, _, _, r5, _⟩ := checkForDuplicatesAt_spec toLowerCase j s2 _ hj2
  have hnew := checkForDuplicates_new toLowerCase s2.config s2.inputHistory
    { f2 with backgroundColor := c2 } (by rw [hthr]; exact w2) (by rw [hn2]; exact hfoo)
    (by rw [hhist]; simp)
  rw [hnew] at r1 r2
  refine ⟨r1, ?_⟩
  obtain ⟨c4, hk3⟩ := checkForDuplicatesAt_field toLowerCase j k s2 _ hk2
  generalize (checkForDuplicatesAt toLowerCase j s2).1 = s3 at r2 r5 hk3
  have hn3 : normalized toLowerCase s3.config
      { ({ f3 with backgroundColor := c3 } : Field) with backgroundColor := c4 } =
      "foo".toList := by
    simp only [normalized, r5, hcase, v3]
    exact hlow
  obtain ⟨q1, _⟩ := checkForDuplicatesAt_spec toLowerCase k s3 _ hk3
  rw [q1, checkForDuplicates_seen toLowerCase s3.config s3.inputHistory _
    (by rw [r5, hthr]; exact w3) (by rw [hn3]; exact hfoo)
    (by rw [hn3, r2, hn2]; exact (mem_setAdd _ _ _).mpr (Or.inr rfl))]

/-- C7 at the page of three content fields valued `Foo`, `foo`, `foo`. -/
theorem caseSensitiveChange_clears_witness :
    (checkForDuplicatesAt toLowerCaseASCII 1
        (caseSensitiveChange false (checkForDuplicatesAt toLowerCaseASCII 0
          (initialState CONFIG
            [fieldOf 200 "Foo", fieldOf 200 "foo", fieldOf 200 "foo"])).1)).2 = false ∧
    (checkForDuplicatesAt toLowerCaseASCII 2
        (checkForDuplicatesAt toLowerCaseASCII 1
          (caseSensitiveChange false (checkForDuplicatesAt toLowerCaseASCII 0
            (initialState CONFIG
              [fieldOf 200 "Foo", fieldOf 200 "foo", fieldOf 200 "foo"])).1)).1).2 = true :=
  (caseSensitiveChange_clears toLowerCaseASCII
    (initialState CONFIG [fieldOf 200 "Foo", fieldOf 200 "foo", fieldOf 200 "foo"])
    false 0 1 2 (fieldOf 200 "Foo") (fieldOf 200 "foo") (fieldOf 200 "foo")
    (by decide) rfl rfl rfl (by decide) rfl rfl (by decide) rfl rfl (by decide)).2.2

/-! ## The deriver -/

theorem getElem?_zero_filter {α : Type} (p : α → Bool) (l : List α) :
    (l.filter p)[0]? = l.find? p := by
  induction l with
  | nil => rfl
  | cons a l ih =>
    by_cases h : p a = true
    · simp [List.filter_cons, List.find?_cons, h]
    · simp only [Bool.not_eq_true] at h
      simp [List.filter_cons, List.find?_cons, h, ih]

theorem mem_allInputs (row : Nat) (fields : List Field) (j : Nat) :
    j ∈ allInputs row fields ↔ ∃ f, fields[j]? = some f ∧ row ∈ f.rows := by
  simp only [allInputs, List.mem_filter, List.mem_range]
  constructor
  · rintro ⟨hj, hp⟩
    cases hf : fields[j]? with
    | none => simp [hf] at hp
    | some f => exact ⟨f, rfl, by simpa [hf] using hp⟩
  · rintro ⟨f, hf, hr⟩
    refine ⟨(List.getElem?_eq_some_iff.mp hf).1, by simp [hf, hr]⟩

theorem mem_levelInputs (cfg : Config) (row : Nat) (fields : List Field) (j : Nat) :
    j ∈ levelInputs cfg row fields ↔
      ∃ f, fields[j]? = some f ∧ row ∈ f.rows ∧ f.offsetWidth ≤ cfg.urlInputWidthThreshold := by
  simp only [levelInputs, List.mem_filter, mem_allInputs]
  constructor
  · rintro ⟨⟨f, hf, hr⟩, hp⟩
    exact ⟨f, hf, hr, by simpa [hf] using hp⟩
  · rintro ⟨f, hf, hr, hw⟩
    exact ⟨⟨f, hf, hr⟩, by simp [hf, hw]⟩

theorem mem_urlInputs (cfg : Config) (row : Nat) (fields : List Field) (j : Nat) :
    j ∈ urlInputs cfg row fields ↔
      ∃ f, fields[j]? = some f ∧ row ∈ f.rows ∧ cfg.urlInputWidthThreshold < f.offsetWidth := by
  simp only [urlInputs, List.mem_filter, mem_allInputs]
  constructor
  · rintro ⟨⟨f, hf, hr⟩, hp⟩
    exact ⟨f, hf, hr, by simpa [hf] using hp⟩
  · rintro ⟨f, hf, hr, hw⟩
    exact ⟨⟨f, hf, hr⟩, by simp [hf, hw]⟩

/-- The first entry of `levelInputs` is the first level field of the row. -/
theorem levelInputs_zero (cfg : Config) (row : Nat) (fields : List Field) (j : Nat) :
    (levelInputs cfg row fields)[0]? = some j ↔
      (∃ g, fields[j]? = some g ∧ row ∈ g.rows ∧ g.offsetWidth ≤ cfg.urlInputWidthThreshold) ∧
      ∀ k e, k < j → fields[k]? = some e → row ∈ e.rows →
        cfg.urlInputWidthThreshold < e.offsetWidth := by
  unfold levelInputs allInputs
  rw [List.filter_filter, getElem?_zero_filter, List.find?_range_eq_some]
  constructor
  · rintro ⟨hp, hj, hfirst⟩
    have hlt : j < fields.length := List.mem_range.mp hj
    have hg : fields[j]? = some fields[j] := List.getElem?_eq_getElem hlt
    rw [hg] at hp
    simp only [Bool.and_eq_true, decide_eq_true_eq] at hp
    refine ⟨⟨fields[j], hg, hp.2, hp.1⟩, ?_⟩
    intro k e hk he hr
    have := hfirst k hk
    rw [he] at this
    simp only [hr, decide_True, Bool.and_true, Bool.not_eq_true', decide_eq_false_iff_not,
      Nat.not_le] at this
    exact this
  · rintro ⟨⟨g, hg, hr, hw⟩, hfirst⟩
    refine ⟨by simp [hg, hr, hw], List.mem_range.mpr (List.getElem?_eq_some_iff.mp hg).1, ?_⟩
    intro k hk
    cases he : fields[k]? with
    | none => simp
    | some e =>
      by_cases hr' : row ∈ e.rows
      · have := hfirst k e hk he hr'
        simp [hr', Nat.not_le.mpr this]
      · simp [hr']

theorem derivedTarget_level (s : State) (i L : Nat) (h : derivedTarget s i = some L) :
    ∃ g, s.fields[L]? = some g ∧ g.offsetWidth ≤ s.config.urlInputWidthThreshold := by
  unfold derivedTarget at h
  split at h
  · cases h
  · split at h
    · cases h
    · split at h
      · cases h
      · obtain ⟨⟨g, hg, _, hw⟩, _⟩ := (levelInputs_zero _ _ _ _).mp h
        exact ⟨g, hg, hw⟩

theorem derivedTarget_eq (s : State) (i : Nat) (u : Field) (row : Nat)
    (hu : s.fields[i]? = some u) (hw : s.config.urlInputWidthThreshold < u.offsetWidth)
    (hr : u.rows.head? = some row) :
    derivedTarget s i = (levelInputs s.config row s.fields)[0]? := by
  simp [derivedTarget, hu, Nat.not_le.mpr hw, hr]

theorem derivedTarget_some (s : State) (i L : Nat) (h : derivedTarget s i = some L) :
    ∃ u row, s.fields[i]? = some u ∧ s.config.urlInputWidthThreshold < u.offsetWidth ∧
      u.rows.head? = some row ∧ (levelInputs s.config row s.fields)[0]? = some L := by
  unfold derivedTarget at h
  split at h
  · cases h
  · rename_i u hu
    split at h
    · cases h
    · rename_i hw
      split at h
      · cases h
      · rename_i row hr
        exact ⟨u, row, hu, Nat.not_le.mp hw, hr, h⟩

theorem updateLevelByURL_none (s : State) (i : Nat) (h : derivedTarget s i = none) :
    updateLevelByURL i s = s := by
  unfold derivedTarget at h
  unfold updateLevelByURL
  split
  · rfl
  · rename_i u hu
    simp only [hu] at h
    split
    · rfl
    · rename_i hw
      simp only [hw, if_false] at h
      split
      · rfl
      · rename_i row hr
        simp only [hr] at h
        split
        · rfl
        · simp only [h]

/-- The state `updateLevelByURL` leaves when it writes a level. -/
theorem updateLevelByURL_some (s : State) (i L : Nat) (u : Field)
    (hL : derivedTarget s i = some L) (hu : s.fields[i]? = some u) :
    updateLevelByURL i s =
      if trim u.value = [] then
        { s with fields := modifyAt (fun f => { f with value := [] }) L s.fields
                 derived := s.derived ++ [(L, [])] }
      else
        setTimeout
          (Callback.revert L
            (match (dispatchInput L
                { s with
                  fields := modifyAt
                    (fun f => { f with value := numberToString (levelOf (trim u.value)) })
                    L s.fields
                  derived := s.derived ++ [(L, numberToString (levelOf (trim u.value)))]
                  dispatched := s.dispatched ++ [L] }).fields[L]? with
              | some f => f.backgroundColor
              | none => []))
          1000
          { dispatchInput L
              { s with
                fields := modifyAt
                  (fun f => { f with value := numberToString (levelOf (trim u.value)) })
                  L s.fields
                derived := s.derived ++ [(L, numberToString (levelOf (trim u.value)))]
                dispatched := s.dispatched ++ [L] } with
            fields := modifyAt (fun f => { f with backgroundColor := pulseColor }) L
              (dispatchInput L
                { s with
                  fields := modifyAt
                    (fun f => { f with value := numberToString (levelOf (trim u.value)) })
                    L s.fields
                  derived := s.derived ++ [(L, numberToString (levelOf (trim u.value)))]
                  dispatched := s.dispatched ++ [L] }).fields } := by
  obtain ⟨u', row, hu', hw, hr, hz⟩ := derivedTarget_some s i L hL
  rw [hu] at hu'
  cases hu'
  have hlev : (levelInputs s.config row s.fields).length ≠ 0 := by
    intro h0
    rw [List.length_eq_zero] at h0
    rw [h0] at hz
    cases hz
  have hurl : (urlInputs s.config row s.fields).length ≠ 0 := by
    intro h0
    rw [List.length_eq_zero] at h0
    have : i ∈ urlInputs s.config row s.fields :=
      (mem_urlInputs _ _ _ _).mpr ⟨u, hu, List.mem_of_mem_head? hr, hw⟩
    rw [h0] at this
    cases this
  unfold updateLevelByURL
  simp only [hu, Nat.not_le.mpr hw, if_false, hr, hlev, hurl, or_self, hz]

@[simp] theorem clearTimeout_fields (c : Option Nat) (s : State) :
    (clearTimeout c s).fields = s.fields := by
  cases c <;> rfl

@[simp] theorem handleInput_fields (t : Nat) (s : State) :
    (handleInput t s).fields = s.fields := by
  simp [handleInput, setTimeout]

@[simp] theorem dispatchInput_fields (t : Nat) (s : State) :
    (dispatchInput t s).fields = s.fields := by
  unfold dispatchInput
  split
  · rfl
  · split
    · simp
    · rfl

theorem replaceScheme_eq (t : JSString) :
    replaceScheme t =
      if "http://".toList <+: t then t.drop 7
      else if "https://".toList <+: t then t.drop 8
      else t := by
  by_cases h1 : "http://".toList <+: t
  · obtain ⟨r, rfl⟩ := h1
    rw [if_pos ⟨r, rfl⟩]
    rfl
  · rw [if_neg h1]
    by_cases h2 : "https://".toList <+: t
    · obtain ⟨r, rfl⟩ := h2
      rw [if_pos ⟨r, rfl⟩]
      rfl
    · rw [if_neg h2]
      unfold replaceScheme
      split
      · exact absurd ⟨_, rfl⟩ h2
      · exact absurd ⟨_, rfl⟩ h1
      · rfl

theorem numberToString_levelOf (t : JSString) :
    numberToString (levelOf t) =
      (Nat.repr ((if (if "http://".toList <+: t then t.drop 7
            else if "https://".toList <+: t then t.drop 8 else t).getLast? = some '/'
          then (if "http://".toList <+: t then t.drop 7
            else if "https://".toList <+: t then t.drop 8 else t).dropLast
          else (if "http://".toList <+: t then t.drop 7
            else if "https://".toList <+: t then t.drop 8 else t)).count '/')).toList := by
  simp only [numberToString, levelOf, matchSlashes, replaceTrailingSlash, replaceScheme_eq,
    Nat.repr, List.asString, List.count, List.countP_eq_length_filter]
  rfl

/-- C1. When `updateLevelByURL` runs on a field wider than the threshold whose closest
row holds a field no wider than the threshold, the first such field of the row ends with
the value the specification describes: empty when the trimmed URL is empty, else the
decimal numeral of the number of `/` left after a leading `http://` or `https://` and
then one trailing `/` are removed.  The listed URLs give 0, 0, 1, 2 and 2, and the empty
URL clears the level field. -/
theorem updateLevelByURL_level (s : State) (i j row : Nat) (f g : Field)
    (hi : s.fields[i]? = some f) (hw : s.config.urlInputWidthThreshold < f.offsetWidth)
    (hrow : f.rows.head? = some row)
    (hj : s.fields[j]? = some g) (hgr : row ∈ g.rows)
    (hgw : g.offsetWidth ≤ s.config.urlInputWidthThreshold)
    (hfirst : ∀ k e, k < j → s.fields[k]? = some e → row ∈ e.rows →
      s.config.urlInputWidthThreshold < e.offsetWidth) :
    (∃ g1, (updateLevelByURL i s).fields[j]? = some g1 ∧ g1.value = specLevelText f.value) ∧
    ((updateLevelByURL 0 (exampleRow "https://a.com")).fields[1]?.map Field.value =
        some "0".toList ∧
      (updateLevelByURL 0 (exampleRow "https://a.com/")).fields[1]?.map Field.value =
        some "0".toList ∧
      (updateLevelByURL 0 (exampleRow "a.com/x")).fields[1]?.map Field.value =
        some "1".toList ∧
      (updateLevelByURL 0 (exampleRow "a.com/x/y/")).fields[1]?.map Field.value =
        some "2".toList ∧
      (updateLevelByURL 0 (exampleRow "example.com/a/b")).fields[1]?.map Field.value =
        some "2".toList ∧
      (updateLevelByURL 0 (exampleRow "")).fields[1]?.map Field.value = some []) := by
  refine ⟨?_, by decide⟩
  have hL : derivedTarget s i = some j := by
    rw [derivedTarget_eq s i f row hi hw hrow]
    exact (levelInputs_zero _ _ _ _).mpr ⟨⟨g, hj, hgr, hgw⟩, hfirst⟩
  rw [updateLevelByURL_some s i j f hL hi]
  by_cases hb : trim f.value = []
  · rw [if_pos hb]
    refine ⟨{ g with value := [] }, ?_, ?_⟩
    · simp [getElem?_modifyAt_self, hj]
    · simp [specLevelText, hb]
  · rw [if_neg hb]
    refine ⟨{ g with value := numberToString (levelOf (trim f.value)),
                     backgroundColor := pulseColor }, ?_, ?_⟩
    · simp [setTimeout, getElem?_modifyAt_self, hj]
    · simp only [specLevelText, hb, if_false]
      exact numberToString_levelOf (trim f.value)

/-- C1 at the row of a URL field valued `a.com/x/y/` and a level field. -/
theorem updateLevelByURL_level_witness :
    ∃ g1, (updateLevelByURL 0 (exampleRow "a.com/x/y/")).fields[1]? = some g1 ∧
      g1.value = specLevelText "a.com/x/y/".toList :=
  (updateLevelByURL_level (exampleRow "a.com/x/y/") 0 1 0 (rowField 200 "a.com/x/y/")
    (rowField 100 "9") rfl (by decide) rfl rfl (by decide) (by decide)
    (by
      intro k e hk he _
      have hk0 : k = 0 := by omega
      subst hk0
      cases he
      decide)).1

/-! ## Submission -/

theorem repeatsSeen_nil (toLowerCase : JSString → JSString) (cfg : Config) (form : Nat)
    (fields : List Field) (j : Nat) :
    repeatsSeen toLowerCase cfg form [] fields j ↔ repeats toLowerCase cfg form fields j := by
  simp [repeatsSeen, repeats]

theorem repeatsSeen_zero (toLowerCase : JSString → JSString) (cfg : Config) (form : Nat)
    (seen : List JSString) (a : Field) (rest : List Field) :
    repeatsSeen toLowerCase cfg form seen (a :: rest) 0 ↔
      (a.form = some form ∧ cfg.urlInputWidthThreshold < a.offsetWidth ∧
        trim (normalized toLowerCase cfg a) ≠ [] ∧ normalized toLowerCase cfg a ∈ seen) := by
  constructor
  · rintro ⟨f, hf, h1, h2, h3, h4 | ⟨i, g, hi, _⟩⟩
    · simp at hf; subst hf; exact ⟨h1, h2, h3, h4⟩
    · omega
  · rintro ⟨h1, h2, h3, h4⟩
    exact ⟨a, by simp, h1, h2, h3, Or.inl h4⟩

theorem repeatsSeen_succ (toLowerCase : JSString → JSString) (cfg : Config) (form : Nat)
    (seen : List JSString) (a : Field) (rest : List Field) (j : Nat) :
    repeatsSeen toLowerCase cfg form seen (a :: rest) (j + 1) ↔
      repeatsSeen toLowerCase cfg form (seenAfter toLowerCase cfg form seen a) rest j := by
  constructor
  · rintro ⟨f, hf, h1, h2, h3, h4⟩
    rw [List.getElem?_cons_succ] at hf
    refine ⟨f, hf, h1, h2, h3, ?_⟩
    rcases h4 with h4 | ⟨i, g, hi, hg, g1, g2, g3⟩
    · left
      unfold seenAfter
      split
      · exact (mem_setAdd _ _ _).mpr (Or.inl h4)
      · exact h4
    · cases i with
      | zero =>
        left
        simp at hg; subst hg
        simp only [seenAfter, g1, g2, and_self, if_true]
        exact (mem_setAdd _ _ _).mpr (Or.inr g3.symm)
      | succ i =>
        right
        rw [List.getElem?_cons_succ] at hg
        exact ⟨i, g, by omega, hg, g1, g2, g3⟩
  · rintro ⟨f, hf, h1, h2, h3, h4⟩
    refine ⟨f, by rw [List.getElem?_cons_succ]; exact hf, h1, h2, h3, ?_⟩
    rcases h4 with h4 | ⟨i, g, hi, hg, g1, g2, g3⟩
    · unfold seenAfter at h4
      split at h4
      · rename_i hc
        rcases (mem_setAdd _ _ _).mp h4 with h4 | h4
        · exact Or.inl h4
        · exact Or.inr ⟨0, a, by omega, by simp, hc.1, hc.2, h4.symm⟩
      · exact Or.inl h4
    · exact Or.inr ⟨i + 1, g, by omega, by rw [List.getElem?_cons_succ]; exact hg, g1, g2, g3⟩

theorem submitLoop_cons (toLowerCase : JSString → JSString) (cfg : Config) (form : Nat)
    (a : Field) (rest : List Field) (seen : List JSString) (dup : Bool) :
    submitLoop toLowerCase cfg form (a :: rest) seen dup =
      ((if a.form ≠ some form then a
        else if cfg.urlInputWidthThreshold < a.offsetWidth then
          (if trim (normalized toLowerCase cfg a) ≠ [] ∧ normalized toLowerCase cfg a ∈ seen
            then { a with backgroundColor := cfg.highlightColor } else a)
        else { a with backgroundColor := cfg.normalColor }) ::
        (submitLoop toLowerCase cfg form rest (seenAfter toLowerCase cfg form seen a)
          (dup || decide (a.form = some form ∧ cfg.urlInputWidthThreshold < a.offsetWidth ∧
            trim (normalized toLowerCase cfg a) ≠ [] ∧
            normalized toLowerCase cfg a ∈ seen))).1,
       (submitLoop toLowerCase cfg form rest (seenAfter toLowerCase cfg form seen a)
          (dup || decide (a.form = some form ∧ cfg.urlInputWidthThreshold < a.offsetWidth ∧
            trim (normalized toLowerCase cfg a) ≠ [] ∧
            normalized toLowerCase cfg a ∈ seen))).2) := by
  by_cases h1 : a.form = some form
  · by_cases h2 : cfg.urlInputWidthThreshold < a.offsetWidth
    · by_cases h3 : trim (normalized toLowerCase cfg a) ≠ [] ∧ normalized toLowerCase cfg a ∈ seen
      · have h4 := h3.1
        have h5 := h3.2
        simp [submitLoop, seenAfter, h1, h2, h4, h5, setAdd_of_mem]
      · have h3' : ¬ (¬ trim (normalized toLowerCase cfg a) = [] ∧
            normalized toLowerCase cfg a ∈ seen) := h3
        simp [submitLoop, seenAfter, h1, h2, h3']
    · simp [submitLoop, seenAfter, h1, h2]
  · simp [submitLoop, seenAfter, h1]

theorem submitLoop_spec (toLowerCase : JSString → JSString) (cfg : Config) (form : Nat)
    (l : List Field) :
    ∀ (seen : List JSString) (dup : Bool),
      (submitLoop toLowerCase cfg form l seen dup).1.length = l.length ∧
      ((submitLoop toLowerCase cfg form l seen dup).2.2 = true ↔
        (dup = true ∨ ∃ j, repeatsSeen toLowerCase cfg form seen l j)) ∧
      ∀ j f, l[j]? = some f →
        (f.form ≠ some form →
          (submitLoop toLowerCase cfg form l seen dup).1[j]? = some f) ∧
        (f.form = some form → f.offsetWidth ≤ cfg.urlInputWidthThreshold →
          (submitLoop toLowerCase cfg form l seen dup).1[j]? =
            some { f with backgroundColor := cfg.normalColor }) ∧
        (f.form = some form → cfg.urlInputWidthThreshold < f.offsetWidth →
          repeatsSeen toLowerCase cfg form seen l j →
          (submitLoop toLowerCase cfg form l seen dup).1[j]? =
            some { f with backgroundColor := cfg.highlightColor }) ∧
        (f.form = some form → cfg.urlInputWidthThreshold < f.offsetWidth →
          ¬ repeatsSeen toLowerCase cfg form seen l j →
          (submitLoop toLowerCase cfg form l seen dup).1[j]? = some f) := by
  induction l with
  | nil =>
    intro seen dup
    refine ⟨rfl, ?_, ?_⟩
    · simp [submitLoop, repeatsSeen]
    · intro j f hf; simp at hf
  | cons a rest ih =>
    intro seen dup
    rw [submitLoop_cons]
    obtain ⟨ih1, ih2, ih3⟩ := ih (seenAfter toLowerCase cfg form seen a)
      (dup || decide (a.form = some form ∧ cfg.urlInputWidthThreshold < a.offsetWidth ∧
        trim (normalized toLowerCase cfg a) ≠ [] ∧ normalized toLowerCase cfg a ∈ seen))
    refine ⟨by simp only [List.length_cons, ih1], ?_, ?_⟩
    · simp only []
      rw [ih2]
      constructor
      · rintro (h | ⟨j, hj⟩)
        · rcases Bool.or_eq_true _ _ ▸ h with h | h
          · exact Or.inl h
          · exact Or.inr ⟨0, (repeatsSeen_zero _ _ _ _ _ _).mpr (of_decide_eq_true h)⟩
        · exact Or.inr ⟨j + 1, (repeatsSeen_succ _ _ _ _ _ _ _).mpr hj⟩
      · rintro (h | ⟨j, hj⟩)
        · exact Or.inl (by simp [h])
        · cases j with
          | zero =>
            left
            have := (repeatsSeen_zero _ _ _ _ _ _).mp hj
            simp [this]
          | succ j => exact Or.inr ⟨j, (repeatsSeen_succ _ _ _ _ _ _ _).mp hj⟩
    · intro j f hf
      cases j with
      | zero =>
        simp only [List.getElem?_cons_zero, Option.some.injEq] at hf
        subst hf
        simp only [List.getElem?_cons_zero, repeatsSeen_zero]
        refine ⟨?_, ?_, ?_, ?_⟩
        · intro h; simp [h]
        · intro h1 h2; simp [h1, Nat.not_lt.mpr h2]
        · intro h1 h2 h3; simp [h1, h2, h3.2.2.1, h3.2.2.2]
        · intro h1 h2 h3
          have h4 : ¬ (trim (normalized toLowerCase cfg a) ≠ [] ∧
              normalized toLowerCase cfg a ∈ seen) := fun h => h3 ⟨h1, h2, h.1, h.2⟩
          simp only [h1, h2, ne_eq, not_true_eq_false, if_false, if_true]
          rw [if_neg h4]
      | succ j =>
        rw [List.getElem?_cons_succ] at hf
        simp only [List.getElem?_cons_succ, repeatsSeen_succ]
        exact ih3 j f hf

/-- C2, as the code has it. With `checkOnSubmit` on, `handleSubmit` calls
`preventDefault` exactly when some content field of the form has a non-blank normalized
value equal to that of an earlier content field of the form; it then emits one
notification when `showNotification` is on and none when it is off.  The fields it sets
to the highlight colour are exactly those later occurrences, the other content fields
keep their colour, the level fields of the form get the normal colour, fields outside the
form are untouched, and `inputHistory` is neither read nor changed.  The form `x`, `y`,
`x` plus a level field is blocked with only the third field highlighted, whatever the
history holds. -/
theorem handleSubmit_blocks_repeats (toLowerCase : JSString → JSString) (form : Nat)
    (s : State) (hcs : s.config.checkOnSubmit = true) :
    ((handleSubmit toLowerCase form s).2 = true ↔
      ∃ j, repeats toLowerCase s.config form s.fields j) ∧
    (handleSubmit toLowerCase form s).1.notifications =
      s.notifications ++
        (if (handleSubmit toLowerCase form s).2 = true ∧ s.config.showNotification = true
          then [submitMessage] else []) ∧
    (handleSubmit toLowerCase form s).1.fields.length = s.fields.length ∧
    (∀ j f, s.fields[j]? = some f →
      (f.form ≠ some form → (handleSubmit toLowerCase form s).1.fields[j]? = some f) ∧
      (f.form = some form → f.offsetWidth ≤ s.config.urlInputWidthThreshold →
        (handleSubmit toLowerCase form s).1.fields[j]? =
          some { f with backgroundColor := s.config.normalColor }) ∧
      (f.form = some form → s.config.urlInputWidthThreshold < f.offsetWidth →
        repeats toLowerCase s.config form s.fields j →
        (handleSubmit toLowerCase form s).1.fields[j]? =
          some { f with backgroundColor := s.config.highlightColor }) ∧
      (f.form = some form → s.config.urlInputWidthThreshold < f.offsetWidth →
        ¬ repeats toLowerCase s.config form s.fields j →
        (handleSubmit toLowerCase form s).1.fields[j]? = some f)) ∧
    (handleSubmit toLowerCase form s).1.inputHistory = s.inputHistory ∧
    (∀ h : List JSString,
      handleSubmit toLowerCase form { s with inputHistory := h } =
        ({ (handleSubmit toLowerCase form s).1 with inputHistory := h },
          (handleSubmit toLowerCase form s).2)) ∧
    (∀ h : List JSString,
      (handleSubmit toLowerCase 0
          { initialState CONFIG exampleForm with inputHistory := h }).2 = true ∧
      (handleSubmit toLowerCase 0
          { initialState CONFIG exampleForm with inputHistory := h }).1.fields =
        [rowField 200 "x", rowField 200 "y",
          { rowField 200 "x" with backgroundColor := CONFIG.highlightColor },
          rowField 100 "1"] ∧
      (handleSubmit toLowerCase 0
          { initialState CONFIG exampleForm with inputHistory := h }).1.inputHistory = h) := by
  obtain ⟨hlen, hdup, hfields⟩ := submitLoop_spec toLowerCase s.config form s.fields [] false
  have hcs' : (!s.config.checkOnSubmit) = false := by simp [hcs]
  by_cases hd : (submitLoop toLowerCase s.config form s.fields [] false).2.2 = true
  · have e : handleSubmit toLowerCase form s =
        (notify submitMessage
          { s with fields := (submitLoop toLowerCase s.config form s.fields [] false).1 }, true) := by
      simp [handleSubmit, hcs, hd]
    have hex : ∃ j, repeats toLowerCase s.config form s.fields j := by
      rcases hdup.mp hd with h | ⟨j, hj⟩
      · cases h
      · exact ⟨j, (repeatsSeen_nil _ _ _ _ _).mp hj⟩
    rw [e]
    refine ⟨by simp [hex], ?_, ?_, ?_, ?_, ?_, ?_⟩
    · by_cases hn : s.config.showNotification = true
      · simp [notify, display, setTimeout, hn]
      · simp [notify, hn]
    · by_cases hn : s.config.showNotification = true
      · simp [notify, display, setTimeout, hn, hlen]
      · simp [notify, hn, hlen]
    · intro j f hf
      have hfl : (notify submitMessage
          { s with fields := (submitLoop toLowerCase s.config form s.fields [] false).1 }).fields =
          (submitLoop toLowerCase s.config form s.fields [] false).1 := by
        by_cases hn : s.config.showNotification = true
        · simp [notify, display, setTimeout, hn]
        · simp [notify, hn]
      simp only [hfl, ← repeatsSeen_nil]
      exact hfields j f hf
    · by_cases hn : s.config.showNotification = true
      · simp [notify, display, setTimeout, hn]
      · simp [notify, hn]
    · intro h
      by_cases hn : s.config.showNotification = true
      · simp [handleSubmit, hcs, hd, notify, display, setTimeout, hn]
      · simp [handleSubmit, hcs, hd, notify, hn]
    · intro h
      refine ⟨rfl, rfl, rfl⟩
  · have e : handleSubmit toLowerCase form s =
        ({ s with fields := (submitLoop toLowerCase s.config form s.fields [] false).1 }, false) := by
      simp [handleSubmit, hcs, hd]
    have hex : ¬ ∃ j, repeats toLowerCase s.config form s.fields j := by
      rintro ⟨j, hj⟩
      exact hd (hdup.mpr (Or.inr ⟨j, (repeatsSeen_nil _ _ _ _ _).mpr hj⟩))
    rw [e]
    refine ⟨by simp [hex], by simp, hlen, ?_, rfl, ?_, ?_⟩
    · intro j f hf
      simp only [← repeatsSeen_nil]
      exact hfields j f hf
    · intro h
      simp [handleSubmit, hcs, hd]
    · intro h
      refine ⟨rfl, rfl, rfl⟩

/-- C2 at the form `x`, `y`, `x` plus a level field, with `x` already in the history. -/
theorem handleSubmit_blocks_repeats_witness :
    (handleSubmit toLowerCaseASCII 0
        { initialState CONFIG exampleForm with inputHistory := ["x".toList] }).2 = true ↔
      ∃ j, repeats toLowerCaseASCII CONFIG 0 exampleForm j :=
  (handleSubmit_blocks_repeats toLowerCaseASCII 0
    { initialState CONFIG exampleForm with inputHistory := ["x".toList] } rfl).1

/-- C2 as stated fails: with notifications switched off the submission of `x`, `y`, `x` is
blocked and no notification is emitted. -/
theorem handleSubmit_blocks_without_notification :
    (handleSubmit toLowerCaseASCII 0
        (initialState { CONFIG with showNotification := false } exampleForm)).2 = true ∧
    (handleSubmit toLowerCaseASCII 0
        (initialState { CONFIG with showNotification := false } exampleForm)).1.notifications = [] := by
  decide

/-! ## The debounce callback -/

theorem clearTimeout_pendingChecks (c : Option Nat) (s : State)
    (h : ∀ tm ∈ pendingChecks s, c = some tm.id) :
    pendingChecks (clearTimeout c s) = [] := by
  cases c with
  | none =>
    simp only [clearTimeout]
    cases hp : pendingChecks s with
    | nil => rfl
    | cons tm l =>
      have := h tm (by rw [hp]; exact List.mem_cons_self _ _)
      cases this
  | some c =>
    simp only [clearTimeout, pendingChecks, List.filter_filter]
    rw [List.filter_eq_nil_iff]
    intro tm htm hc
    simp only [Bool.and_eq_true, bne_iff_ne, ne_eq] at hc
    have hmem : tm ∈ pendingChecks s := by
      simp only [pendingChecks, List.mem_filter]
      exact ⟨htm, hc.1⟩
    have := h tm hmem
    simp only [Option.some.injEq] at this
    exact hc.2 this.symm

theorem clearTimeout_frame (c : Option Nat) (s : State) :
    (clearTimeout c s).config = s.config ∧ (clearTimeout c s).inputHistory = s.inputHistory ∧
    (clearTimeout c s).now = s.now ∧ (clearTimeout c s).nextTimer = s.nextTimer ∧
    (clearTimeout c s).handled = s.handled ∧ (clearTimeout c s).evaluations = s.evaluations ∧
    (clearTimeout c s).derived = s.derived ∧ (clearTimeout c s).dispatched = s.dispatched ∧
    (clearTimeout c s).notifications = s.notifications := by
  cases c <;> exact ⟨rfl, rfl, rfl, rfl, rfl, rfl, rfl, rfl, rfl⟩

/-- What `handleInput` does to a state whose pending debounce timers are all the one
`checkTimeout` names: exactly one debounce timer is pending afterwards, for the target. -/
theorem handleInput_spec (t : Nat) (s : State) (h : Owned s) :
    pendingChecks (handleInput t s) =
      [{ id := s.nextTimer, due := s.now + s.config.checkDelay, callback := Callback.check t }] ∧
    (handleInput t s).checkTimeout = some s.nextTimer ∧
    (handleInput t s).handled = s.handled ++ [t] ∧
    (handleInput t s).fields = s.fields ∧ (handleInput t s).config = s.config ∧
    (handleInput t s).inputHistory = s.inputHistory ∧ (handleInput t s).now = s.now ∧
    (handleInput t s).evaluations = s.evaluations ∧ (handleInput t s).derived = s.derived ∧
    (handleInput t s).dispatched = s.dispatched ∧
    (handleInput t s).notifications = s.notifications := by
  obtain ⟨c1, c2, c3, c4, c5, c6, c7, c8, c9⟩ := clearTimeout_frame s.checkTimeout s
  have hp := clearTimeout_pendingChecks s.checkTimeout s h
  refine ⟨?_, ?_, ?_, ?_, ?_, ?_, ?_, ?_, ?_, ?_, ?_⟩
  · show List.filter isCheck ((clearTimeout s.checkTimeout s).timers ++ [_]) = _
    rw [List.filter_append]
    show pendingChecks (clearTimeout s.checkTimeout s) ++ _ = _
    rw [hp, c3, c4, c1]
    rfl
  · show some (clearTimeout s.checkTimeout s).nextTimer = _
    rw [c4]
  · show (clearTimeout s.checkTimeout s).handled ++ [t] = _
    rw [c5]
  · simp
  · exact c1
  · exact c2
  · exact c3
  · exact c6
  · exact c7
  · exact c8
  · exact c9

theorem dispatchInput_cases (t : Nat) (s : State) :
    dispatchInput t s = s ∨
      ((∃ f, s.fields[t]? = some f ∧ 0 < f.listeners) ∧ dispatchInput t s = handleInput t s) := by
  unfold dispatchInput
  split
  · exact Or.inl rfl
  · rename_i f hf
    split
    · rename_i hl
      exact Or.inr ⟨⟨f, hf, hl⟩, rfl⟩
    · exact Or.inl rfl

theorem lookup_layout (a b : List Field)
    (h : a.map (fun f => (f.offsetWidth, f.rows, f.listeners)) =
      b.map (fun f => (f.offsetWidth, f.rows, f.listeners))) (j : Nat) :
    (a[j]? = none ∧ b[j]? = none) ∨
      ∃ f g, a[j]? = some f ∧ b[j]? = some g ∧ f.offsetWidth = g.offsetWidth ∧
        f.rows = g.rows ∧ f.listeners = g.listeners := by
  have hj : (a[j]?).map (fun f => (f.offsetWidth, f.rows, f.listeners)) =
      (b[j]?).map (fun f => (f.offsetWidth, f.rows, f.listeners)) := by
    rw [← List.getElem?_map, ← List.getElem?_map, h]
  cases ha : a[j]? with
  | none =>
    cases hb : b[j]? with
    | none => exact Or.inl ⟨rfl, rfl⟩
    | some g => rw [ha, hb] at hj; cases hj
  | some f =>
    cases hb : b[j]? with
    | none => rw [ha, hb] at hj; cases hj
    | some g =>
      rw [ha, hb] at hj
      simp only [Option.map_some', Option.some.injEq, Prod.mk.injEq] at hj
      exact Or.inr ⟨f, g, rfl, rfl, hj.1, hj.2.1, hj.2.2⟩

theorem levelInputs_congr (cfg : Config) (row : Nat) (a b : List Field)
    (h : a.map (fun f => (f.offsetWidth, f.rows, f.listeners)) =
      b.map (fun f => (f.offsetWidth, f.rows, f.listeners))) :
    levelInputs cfg row a = levelInputs cfg row b := by
  have hlen : a.length = b.length := by
    have := congrArg List.length h
    simpa using this
  unfold levelInputs allInputs
  rw [hlen]
  simp only [List.filter_filter]
  apply List.filter_congr
  intro j _
  rcases lookup_layout a b h j with ⟨ha, hb⟩ | ⟨f, g, ha, hb, hw, hr, _⟩
  · simp [ha, hb]
  · simp [ha, hb, hw, hr]

theorem derivedTarget_congr (s s1 : State) (i : Nat) (hl : layout s1 = layout s)
    (hc : s1.config.urlInputWidthThreshold = s.config.urlInputWidthThreshold) :
    derivedTarget s1 i = derivedTarget s i := by
  have hcfg : ∀ row, levelInputs s1.config row s1.fields = levelInputs s.config row s.fields := by
    intro row
    rw [levelInputs_congr s1.config row s1.fields s.fields hl]
    simp only [levelInputs, hc]
  unfold derivedTarget
  rcases lookup_layout s1.fields s.fields hl i with ⟨ha, hb⟩ | ⟨f, g, ha, hb, hw, hr, _⟩
  · simp [ha, hb]
  · simp only [ha, hb, hw, hr, hc, hcfg]

theorem layout_modifyAt (s : State) (g : Field → Field) (j : Nat)
    (h : ∀ f, (g f).offsetWidth = f.offsetWidth ∧ (g f).rows = f.rows ∧
      (g f).listeners = f.listeners) :
    (modifyAt g j s.fields).map (fun f => (f.offsetWidth, f.rows, f.listeners)) = layout s := by
  unfold layout
  apply map_modifyAt_of_eq
  intro f
  obtain ⟨h1, h2, h3⟩ := h f
  simp [h1, h2, h3]

theorem modifyAt_congr (g1 g2 : Field → Field) (j : Nat) (l : List Field)
    (h : ∀ f, l[j]? = some f → g1 f = g2 f) : modifyAt g1 j l = modifyAt g2 j l := by
  induction l generalizing j with
  | nil => cases j <;> rfl
  | cons a l ih =>
    cases j with
    | zero => simp [modifyAt, h a (by simp)]
    | succ n =>
      simp only [modifyAt]
      rw [ih n (fun f hf => h f (by rw [List.getElem?_cons_succ]; exact hf))]

/-- The detector leaves the layout as it was. -/
theorem checkForDuplicatesAt_layout (toLowerCase : JSString → JSString) (i : Nat) (s : State) :
    layout (checkForDuplicatesAt toLowerCase i s).1 = layout s := by
  cases hi : s.fields[i]? with
  | none => rw [checkForDuplicatesAt_none _ _ _ hi]
  | some el =>
    unfold layout
    rw [(checkForDuplicatesAt_spec toLowerCase i s el hi).2.2.1]
    obtain ⟨c, hc⟩ := checkForDuplicates_element toLowerCase s.config s.inputHistory el
    rw [hc, modifyAt_congr (fun _ => { el with backgroundColor := c })
      (fun f => { f with backgroundColor := c }) i s.fields
      (fun f hf => by rw [hi] at hf; cases hf; rfl)]
    exact layout_modifyAt s _ i (fun f => ⟨rfl, rfl, rfl⟩)

theorem pendingChecks_setTimeout_revert (L : Nat) (c : JSString) (d : Nat) (s : State) :
    pendingChecks (setTimeout (Callback.revert L c) d s) = pendingChecks s := by
  simp [pendingChecks, setTimeout, isCheck]

/-- What `updateLevelByURL` does to a state whose pending debounce timers are all the
one `checkTimeout` names. -/
theorem updateLevelByURL_spec (i : Nat) (s : State) (h : Owned s) :
    (updateLevelByURL i s).evaluations = s.evaluations ∧
    layout (updateLevelByURL i s) = layout s ∧
    (updateLevelByURL i s).config = s.config ∧
    (updateLevelByURL i s).now = s.now ∧
    (updateLevelByURL i s).inputHistory = s.inputHistory ∧
    (updateLevelByURL i s).notifications = s.notifications ∧
    (∃ ws, (updateLevelByURL i s).derived = s.derived ++ ws ∧ ws.length ≤ 1) ∧
    (∃ ds, (updateLevelByURL i s).dispatched = s.dispatched ++ ds ∧ ds.length ≤ 1) ∧
    ((pendingChecks (updateLevelByURL i s) = pendingChecks s ∧
        (updateLevelByURL i s).checkTimeout = s.checkTimeout ∧
        (updateLevelByURL i s).handled = s.handled) ∨
      (∃ L, derivedTarget s i = some L ∧
        pendingChecks (updateLevelByURL i s) =
          [{ id := s.nextTimer, due := s.now + s.config.checkDelay,
             callback := Callback.check L }] ∧
        (updateLevelByURL i s).checkTimeout = some s.nextTimer ∧
        (updateLevelByURL i s).handled = s.handled ++ [L])) := by
  cases hL : derivedTarget s i with
  | none =>
    rw [updateLevelByURL_none s i hL]
    exact ⟨rfl, rfl, rfl, rfl, rfl, rfl, ⟨[], by simp, by simp⟩, ⟨[], by simp, by simp⟩,
      Or.inl ⟨rfl, rfl, rfl⟩⟩
  | some L =>
    obtain ⟨u, row, hu, _, _, _⟩ := derivedTarget_some s i L hL
    rw [updateLevelByURL_some s i L u hL hu]
    by_cases hb : trim u.value = []
    · rw [if_pos hb]
      refine ⟨rfl, ?_, rfl, rfl, rfl, rfl, ⟨[(L, [])], rfl, by simp⟩, ⟨[], by simp, by simp⟩,
        Or.inl ⟨rfl, rfl, rfl⟩⟩
      exact layout_modifyAt s _ L (fun f => ⟨rfl, rfl, rfl⟩)
    · rw [if_neg hb]
      generalize hs1 : ({ s with
          fields := modifyAt
            (fun f => { f with value := numberToString (levelOf (trim u.value)) }) L s.fields
          derived := s.derived ++ [(L, numberToString (levelOf (trim u.value)))]
          dispatched := s.dispatched ++ [L] } : State) = s1
      have e1 : s1.fields = modifyAt
          (fun f => { f with value := numberToString (levelOf (trim u.value)) }) L s.fields := by
        rw [← hs1]
      have e2 : s1.derived = s.derived ++ [(L, numberToString (levelOf (trim u.value)))] := by
        rw [← hs1]
      have e3 : s1.dispatched = s.dispatched ++ [L] := by rw [← hs1]
      have e4 : s1.timers = s.timers ∧ s1.checkTimeout = s.checkTimeout ∧
          s1.handled = s.handled ∧ s1.evaluations = s.evaluations ∧ s1.config = s.config ∧
          s1.now = s.now ∧ s1.inputHistory = s.inputHistory ∧
          s1.notifications = s.notifications ∧ s1.nextTimer = s.nextTimer := by
        rw [← hs1]
        exact ⟨rfl, rfl, rfl, rfl, rfl, rfl, rfl, rfl, rfl⟩
      obtain ⟨t1, t2, t3, t4, t5, t6, t7, t8, t9⟩ := e4
      have hp1 : pendingChecks s1 = pendingChecks s := by simp only [pendingChecks, t1]
      have hO1 : Owned s1 := by
        intro tm htm
        rw [t2]
        exact h tm (hp1 ▸ htm)
      have hlay : (modifyAt (fun f => { f with backgroundColor := pulseColor }) L
          (dispatchInput L s1).fields).map (fun f => (f.offsetWidth, f.rows, f.listeners)) =
          layout s := by
        rw [dispatchInput_fields, e1]
        rw [map_modifyAt_of_eq (fun f : Field => (f.offsetWidth, f.rows, f.listeners))
          (fun f => { f with backgroundColor := pulseColor }) L _ (fun f => rfl)]
        exact layout_modifyAt s _ L (fun f => ⟨rfl, rfl, rfl⟩)
      rcases dispatchInput_cases L s1 with hd | ⟨_, hd⟩
      · rw [hd]
        rw [hd] at hlay
        refine ⟨t4, hlay, t5, t6, t7, t8, ⟨_, e2, by simp⟩, ⟨_, e3, by simp⟩, Or.inl ⟨?_, t2, t3⟩⟩
        refine (pendingChecks_setTimeout_revert _ _ _ _).trans ?_
        show pendingChecks s1 = _
        exact hp1
      · obtain ⟨q1, q2, q3, q4, q5, q6, q7, q8, q9, q10, q11⟩ := handleInput_spec L s1 hO1
        rw [hd]
        rw [hd] at hlay
        refine ⟨q8.trans t4, hlay, q5.trans t5, q7.trans t6, q6.trans t7, q11.trans t8,
          ⟨_, q9.trans e2, by simp⟩, ⟨_, q10.trans e3, by simp⟩, Or.inr ⟨L, rfl, ?_, ?_, ?_⟩⟩
        · refine (pendingChecks_setTimeout_revert _ _ _ _).trans ?_
          show pendingChecks (handleInput L s1) = _
          rw [q1, t9, t6, t5]
        · show (handleInput L s1).checkTimeout = _
          rw [q2, t9]
        · show (handleInput L s1).handled = _
          rw [q3, t3]

/-- What the debounce callback does to a state whose pending debounce timers are all the
one `checkTimeout` names: one evaluation is logged, at most one level is written and one
event dispatched, and either the debounce timers, `checkTimeout` and the log of
`handleInput` calls are as before, or `handleInput` ran on the level field of the target's
row and its timer is the only debounce timer pending. -/
theorem evaluate_spec (toLowerCase : JSString → JSString) (i : Nat) (s : State)
    (h : Owned s) :
    (evaluate toLowerCase i s).evaluations = s.evaluations ++ [i] ∧
    layout (evaluate toLowerCase i s) = layout s ∧
    (evaluate toLowerCase i s).config = s.config ∧
    (evaluate toLowerCase i s).now = s.now ∧
    (∀ x ∈ (evaluate toLowerCase i s).inputHistory, x ∈ s.inputHistory ∨ trim x ≠ []) ∧
    (∃ ws, (evaluate toLowerCase i s).derived = s.derived ++ ws ∧ ws.length ≤ 1) ∧
    (∃ ds, (evaluate toLowerCase i s).dispatched = s.dispatched ++ ds ∧ ds.length ≤ 1) ∧
    ((pendingChecks (evaluate toLowerCase i s) = pendingChecks s ∧
        (evaluate toLowerCase i s).checkTimeout = s.checkTimeout ∧
        (evaluate toLowerCase i s).handled = s.handled) ∨
      (∃ L n, derivedTarget s i = some L ∧
        pendingChecks (evaluate toLowerCase i s) =
          [{ id := n, due := s.now + s.config.checkDelay, callback := Callback.check L }] ∧
        (evaluate toLowerCase i s).checkTimeout = some n ∧
        (evaluate toLowerCase i s).handled = s.handled ++ [L])) := by
  unfold evaluate
  generalize hs0 : ({ s with evaluations := s.evaluations ++ [i] } : State) = s0
  have a1 : s0.evaluations = s.evaluations ++ [i] := by rw [← hs0]
  have a2 : s0.fields = s.fields ∧ s0.config = s.config ∧ s0.now = s.now ∧
      s0.inputHistory = s.inputHistory ∧ s0.derived = s.derived ∧
      s0.dispatched = s.dispatched ∧ s0.timers = s.timers ∧
      s0.checkTimeout = s.checkTimeout ∧ s0.handled = s.handled := by
    rw [← hs0]
    exact ⟨rfl, rfl, rfl, rfl, rfl, rfl, rfl, rfl, rfl⟩
  obtain ⟨b1, b2, b3, b4, b5, b6, b7, b8, b9⟩ := a2
  have hp0 : pendingChecks s0 = pendingChecks s := by simp only [pendingChecks, b7]
  have hl0 : layout s0 = layout s := by simp only [layout, b1]
  -- the detector
  have hc : (checkForDuplicatesAt toLowerCase i s0).1.config = s0.config ∧
      (checkForDuplicatesAt toLowerCase i s0).1.checkTimeout = s0.checkTimeout ∧
      (checkForDuplicatesAt toLowerCase i s0).1.now = s0.now ∧
      (checkForDuplicatesAt toLowerCase i s0).1.handled = s0.handled ∧
      (checkForDuplicatesAt toLowerCase i s0).1.evaluations = s0.evaluations ∧
      (checkForDuplicatesAt toLowerCase i s0).1.derived = s0.derived ∧
      (checkForDuplicatesAt toLowerCase i s0).1.dispatched = s0.dispatched ∧
      pendingChecks (checkForDuplicatesAt toLowerCase i s0).1 = pendingChecks s0 ∧
      (∀ x ∈ (checkForDuplicatesAt toLowerCase i s0).1.inputHistory,
        x ∈ s0.inputHistory ∨ trim x ≠ []) := by
    cases hi : s0.fields[i]? with
    | none =>
      rw [checkForDuplicatesAt_none _ _ _ hi]
      exact ⟨rfl, rfl, rfl, rfl, rfl, rfl, rfl, rfl, fun x hx => Or.inl hx⟩
    | some el =>
      obtain ⟨_, c2, _, _, c5, c6, c7, c8, c9, c10, c11, c12⟩ :=
        checkForDuplicatesAt_spec toLowerCase i s0 el hi
      refine ⟨c5, c6, c7, c8, c9, c10, c11, c12, ?_⟩
      intro x hx
      rw [c2] at hx
      rcases checkForDuplicates_history _ _ _ _ _ hx with hx | ⟨_, hx⟩
      · exact Or.inl hx
      · exact Or.inr hx
  obtain ⟨c5, c6, c7, c8, c9, c10, c11, c12, c13⟩ := hc
  have hl1 := checkForDuplicatesAt_layout toLowerCase i s0
  generalize (checkForDuplicatesAt toLowerCase i s0).1 = s1 at c5 c6 c7 c8 c9 c10 c11 c12 c13 hl1
  have hO1 : Owned s1 := by
    intro tm htm
    rw [c6, b8]
    exact h tm (by rw [← hp0, ← c12]; exact htm)
  obtain ⟨u1, u2, u3, u4, u5, _, ⟨ws, u7, hws⟩, ⟨ds, u8, hds⟩, u9⟩ :=
    updateLevelByURL_spec i s1 hO1
  refine ⟨by rw [u1, c9, a1], by rw [u2, hl1, hl0], by rw [u3, c5, b2], by rw [u4, c7, b3],
    ?_, ⟨ws, by rw [u7, c10, b5], hws⟩, ⟨ds, by rw [u8, c11, b6], hds⟩, ?_⟩
  · intro x hx
    rw [u5] at hx
    rcases c13 x hx with hx | hx
    · exact Or.inl (b4 ▸ hx)
    · exact Or.inr hx
  · rcases u9 with ⟨v1, v2, v3⟩ | ⟨L, v0, v1, v2, v3⟩
    · exact Or.inl ⟨by rw [v1, c12, hp0], by rw [v2, c6, b8], by rw [v3, c8, b9]⟩
    · refine Or.inr ⟨L, s1.nextTimer, ?_, ?_, v2, by rw [v3, c8, b9]⟩
      · rw [← v0]
        exact derivedTarget_congr s1 s i (by rw [hl1, hl0]) (by rw [c5, b2])
      · rw [v1, c7, b3, c5, b2]

/-- The debounce callback on a level field only sets its background to the normal colour. -/
theorem evaluate_level (toLowerCase : JSString → JSString) (i : Nat) (s : State) (f : Field)
    (hf : s.fields[i]? = some f) (hw : f.offsetWidth ≤ s.config.urlInputWidthThreshold) :
    evaluate toLowerCase i s =
      { s with
        evaluations := s.evaluations ++ [i]
        fields := modifyAt (fun g => { g with backgroundColor := s.config.normalColor })
          i s.fields } := by
  unfold evaluate
  have hf0 : ({ s with evaluations := s.evaluations ++ [i] } : State).fields[i]? = some f := hf
  rw [checkForDuplicatesAt_some toLowerCase i _ f hf0]
  simp only [checkForDuplicates_level toLowerCase s.config s.inputHistory f hw, List.foldl_nil]
  rw [updateLevelByURL_none]
  · rw [modifyAt_congr (fun _ => { f with backgroundColor := s.config.normalColor })
      (fun g => { g with backgroundColor := s.config.normalColor }) i s.fields
      (fun g hg => by rw [hf] at hg; cases hg; rfl)]
  · simp only [derivedTarget, getElem?_modifyAt_self, hf, Option.map_some', hw, if_true]

/-- The debounce callback on a field that is no longer on the page does nothing. -/
theorem evaluate_missing (toLowerCase : JSString → JSString) (i : Nat) (s : State)
    (hf : s.fields[i]? = none) :
    evaluate toLowerCase i s = { s with evaluations := s.evaluations ++ [i] } := by
  unfold evaluate
  have hf0 : ({ s with evaluations := s.evaluations ++ [i] } : State).fields[i]? = none := hf
  rw [checkForDuplicatesAt_none toLowerCase i _ hf0]
  rw [updateLevelByURL_none]
  simp only [derivedTarget, hf]

/-! ## The debounce -/

theorem filter_eraseIdx_of_false {α : Type} (p : α → Bool) (l : List α) (k : Nat) (t : α)
    (h : l[k]? = some t) (hp : p t = false) : (l.eraseIdx k).filter p = l.filter p := by
  induction l generalizing k with
  | nil => simp at h
  | cons a l ih =>
    cases k with
    | zero =>
      simp only [List.getElem?_cons_zero, Option.some.injEq] at h
      subst h
      simp [List.filter_cons, hp]
    | succ n =>
      rw [List.getElem?_cons_succ] at h
      simp only [List.eraseIdx_cons_succ, List.filter_cons, ih n h]

theorem filter_eraseIdx_of_singleton {α : Type} (p : α → Bool) (l : List α) (k : Nat)
    (t tm : α) (h : l[k]? = some t) (hp : p t = true) (hs : l.filter p = [tm]) :
    tm = t ∧ (l.eraseIdx k).filter p = [] := by
  induction l generalizing k with
  | nil => simp at h
  | cons a l ih =>
    cases k with
    | zero =>
      simp only [List.getElem?_cons_zero, Option.some.injEq] at h
      subst h
      simp only [List.filter_cons, hp, if_true, List.cons.injEq] at hs
      exact ⟨hs.1.symm, by simpa using hs.2⟩
    | succ n =>
      rw [List.getElem?_cons_succ] at h
      by_cases ha : p a = true
      · simp only [List.filter_cons, ha, if_true, List.cons.injEq] at hs
        have hmem : t ∈ l.filter p := List.mem_filter.mpr ⟨List.getElem?_mem h, hp⟩
        rw [hs.2] at hmem
        cases hmem
      · simp only [Bool.not_eq_true] at ha
        simp only [List.filter_cons, ha, Bool.false_eq_true, if_false] at hs
        obtain ⟨h1, h2⟩ := ih n h hs
        exact ⟨h1, by simp [List.filter_cons, ha, h2]⟩

theorem step_fire (toLowerCase : JSString → JSString) (s s1 : State) (k : Nat)
    (h : step toLowerCase s (Event.fire k) = some s1) :
    ∃ t, s.timers[k]? = some t ∧ t.due ≤ s.now ∧
      s1 = runCallback toLowerCase t.callback { s with timers := s.timers.eraseIdx k } := by
  simp only [step] at h
  split at h
  · cases h
  · rename_i t ht
    split at h
    · rename_i hd
      exact ⟨t, ht, hd, (Option.some.inj h).symm⟩
    · cases h

/-- A timer that is not a debounce timer leaves, when it fires, everything the debounce
looks at as it was. -/
theorem fire_other (toLowerCase : JSString → JSString) (s : State) (k : Nat) (t : Timer)
    (ht : s.timers[k]? = some t) (hc : isCheck t = false) :
    pendingChecks (runCallback toLowerCase t.callback { s with timers := s.timers.eraseIdx k }) =
      pendingChecks s ∧
    (runCallback toLowerCase t.callback { s with timers := s.timers.eraseIdx k }).checkTimeout =
      s.checkTimeout ∧
    (runCallback toLowerCase t.callback { s with timers := s.timers.eraseIdx k }).handled =
      s.handled ∧
    (runCallback toLowerCase t.callback { s with timers := s.timers.eraseIdx k }).evaluations =
      s.evaluations ∧
    (runCallback toLowerCase t.callback { s with timers := s.timers.eraseIdx k }).derived =
      s.derived ∧
    (runCallback toLowerCase t.callback { s with timers := s.timers.eraseIdx k }).dispatched =
      s.dispatched ∧
    (runCallback toLowerCase t.callback { s with timers := s.timers.eraseIdx k }).config =
      s.config ∧
    (runCallback toLowerCase t.callback { s with timers := s.timers.eraseIdx k }).now = s.now ∧
    (runCallback toLowerCase t.callback { s with timers := s.timers.eraseIdx k }).inputHistory =
      s.inputHistory ∧
    layout (runCallback toLowerCase t.callback { s with timers := s.timers.eraseIdx k }) =
      layout s := by
  have hp : pendingChecks ({ s with timers := s.timers.eraseIdx k } : State) = pendingChecks s :=
    filter_eraseIdx_of_false isCheck s.timers k t ht hc
  cases hcb : t.callback with
  | check i => simp [isCheck, hcb] at hc
  | revert L c =>
    refine ⟨hp, rfl, rfl, rfl, rfl, rfl, rfl, rfl, rfl, ?_⟩
    exact layout_modifyAt s _ L (fun f => ⟨rfl, rfl, rfl⟩)
  | hide => exact ⟨hp, rfl, rfl, rfl, rfl, rfl, rfl, rfl, rfl, rfl⟩

theorem Coordinated.owned {s : State} (h : Coordinated s) : Owned s := by
  intro tm htm
  rcases h with h | ⟨tm1, _, h, hc, _⟩
  · rw [h] at htm; cases htm
  · rw [h] at htm
    simp only [List.mem_singleton] at htm
    rw [htm]; exact hc

theorem isCheck_iff (t : Timer) : isCheck t = true ↔ ∃ i, t.callback = Callback.check i := by
  unfold isCheck
  cases t.callback <;> simp

theorem notify_frame (m : JSString) (s : State) :
    pendingChecks (notify m s) = pendingChecks s ∧ (notify m s).checkTimeout = s.checkTimeout ∧
    (notify m s).handled = s.handled ∧ (notify m s).inputHistory = s.inputHistory ∧
    (notify m s).fields = s.fields ∧ (notify m s).config = s.config := by
  unfold notify
  split
  · exact ⟨rfl, rfl, rfl, rfl, rfl, rfl⟩
  · refine ⟨?_, rfl, rfl, rfl, rfl, rfl⟩
    simp [pendingChecks, display, setTimeout, isCheck]

theorem handleSubmit_frame (toLowerCase : JSString → JSString) (form : Nat) (s : State) :
    pendingChecks (handleSubmit toLowerCase form s).1 = pendingChecks s ∧
    (handleSubmit toLowerCase form s).1.checkTimeout = s.checkTimeout ∧
    (handleSubmit toLowerCase form s).1.handled = s.handled ∧
    (handleSubmit toLowerCase form s).1.inputHistory = s.inputHistory := by
  unfold handleSubmit
  split
  · exact ⟨rfl, rfl, rfl, rfl⟩
  · simp only
    split
    · obtain ⟨h1, h2, h3, h4, _, _⟩ := notify_frame submitMessage
        ({ s with fields := (submitLoop toLowerCase s.config form s.fields [] false).1 } : State)
      exact ⟨h1, h2, h3, h4⟩
    · exact ⟨rfl, rfl, rfl, rfl⟩

/-- An event that is neither an edit nor a timer firing leaves the debounce timers,
`checkTimeout` and the log of `handleInput` calls as they were, and adds nothing to the
history. -/
theorem step_other (toLowerCase : JSString → JSString) (s s1 : State) (e : Event)
    (hs : step toLowerCase s e = some s1)
    (he : (∀ t v, e ≠ Event.edit t v) ∧ (∀ k, e ≠ Event.fire k)) :
    pendingChecks s1 = pendingChecks s ∧ s1.checkTimeout = s.checkTimeout ∧
    s1.handled = s.handled ∧ ∀ x ∈ s1.inputHistory, x ∈ s.inputHistory := by
  cases e with
  | edit t v => exact absurd rfl (he.1 t v)
  | fire k => exact absurd rfl (he.2 k)
  | advance dt =>
    simp only [step, Option.some.injEq] at hs
    subst hs
    exact ⟨rfl, rfl, rfl, fun x hx => hx⟩
  | caseSensitive c =>
    simp only [step, Option.some.injEq] at hs
    subst hs
    exact ⟨rfl, rfl, rfl, fun x hx => by cases hx⟩
  | checkSubmit c =>
    simp only [step, Option.some.injEq] at hs
    subst hs
    exact ⟨rfl, rfl, rfl, fun x hx => hx⟩
  | showNotification c =>
    simp only [step, Option.some.injEq] at hs
    subst hs
    exact ⟨rfl, rfl, rfl, fun x hx => hx⟩
  | clearHistory =>
    simp only [step, Option.some.injEq] at hs
    subst hs
    obtain ⟨h1, h2, h3, h4, _, _⟩ := notify_frame "历史记录已清除".toList
      ({ s with
        inputHistory := []
        fields := s.fields.map
          (fun el => { el with backgroundColor := s.config.normalColor }) } : State)
    refine ⟨h1, h2, h3, fun x hx => ?_⟩
    have hx1 : x ∈ (notify "历史记录已清除".toList
      ({ s with
        inputHistory := []
        fields := s.fields.map
          (fun el => { el with backgroundColor := s.config.normalColor }) } : State)).inputHistory :=
      hx
    rw [h4] at hx1
    cases hx1
  | submit form =>
    simp only [step, Option.some.injEq] at hs
    subst hs
    obtain ⟨h1, h2, h3, h4⟩ := handleSubmit_frame toLowerCase form s
    exact ⟨h1, h2, h3, fun x hx => h4 ▸ hx⟩
  | resize t w =>
    simp only [step, Option.some.injEq] at hs
    subst hs
    exact ⟨rfl, rfl, rfl, fun x hx => hx⟩
  | mutation ms =>
    simp only [step, Option.some.injEq] at hs
    subst hs
    exact ⟨rfl, rfl, rfl, fun x hx => hx⟩

/-- Every event keeps the debounce coordinated. -/
theorem coordinated_step (toLowerCase : JSString → JSString) (s s1 : State) (e : Event)
    (h : Coordinated s) (hs : step toLowerCase s e = some s1) : Coordinated s1 := by
  cases e with
  | edit t v =>
    simp only [step, Option.some.injEq] at hs
    subst hs
    have h0 : Coordinated ({ s with
        fields := modifyAt (fun f => { f with value := v }) t s.fields } : State) := h
    rcases dispatchInput_cases t ({ s with
        fields := modifyAt (fun f => { f with value := v }) t s.fields } : State) with hd | ⟨_, hd⟩
    · rw [hd]; exact h0
    · rw [hd]
      obtain ⟨q1, q2, q3, _⟩ := handleInput_spec t _ h0.owned
      exact Or.inr ⟨_, t, q1, q2, rfl, by rw [q3]; simp⟩
  | fire k =>
    obtain ⟨t, ht, _, rfl⟩ := step_fire toLowerCase s s1 k hs
    by_cases hc : isCheck t = true
    · obtain ⟨i, hi⟩ := (isCheck_iff t).mp hc
      have hmem : t ∈ pendingChecks s := List.mem_filter.mpr ⟨List.getElem?_mem ht, hc⟩
      rcases h with h | ⟨tm, _, h, _, _, _⟩
      · rw [h] at hmem; cases hmem
      · obtain ⟨_, hp0⟩ := filter_eraseIdx_of_singleton isCheck s.timers k t tm ht hc h
        have hO : Owned ({ s with timers := s.timers.eraseIdx k } : State) := by
          intro x hx
          have hx1 : x ∈ List.filter isCheck (s.timers.eraseIdx k) := hx
          rw [hp0] at hx1; cases hx1
        rw [hi]
        obtain ⟨_, _, _, _, _, _, _, r⟩ := evaluate_spec toLowerCase i _ hO
        rcases r with ⟨r1, _, _⟩ | ⟨L, n, _, r1, r2, r3⟩
        · left
          show pendingChecks (evaluate toLowerCase i _) = []
          rw [r1]; exact hp0
        · right
          exact ⟨_, L, r1, r2, rfl, by
            show (evaluate toLowerCase i _).handled.getLast? = some L
            rw [r3]; simp⟩
    · simp only [Bool.not_eq_true] at hc
      obtain ⟨p1, p2, p3, _⟩ := fire_other toLowerCase s k t ht hc
      unfold Coordinated
      rw [p1, p2, p3]
      exact h
  | advance dt =>
    obtain ⟨p1, p2, p3, _⟩ := step_other toLowerCase s s1 _ hs
      ⟨fun _ _ h => (by cases h), fun _ h => (by cases h)⟩
    unfold Coordinated
    rw [p1, p2, p3]
    exact h
  | caseSensitive c =>
    obtain ⟨p1, p2, p3, _⟩ := step_other toLowerCase s s1 _ hs
      ⟨fun _ _ h => (by cases h), fun _ h => (by cases h)⟩
    unfold Coordinated
    rw [p1, p2, p3]
    exact h
  | checkSubmit c =>
    obtain ⟨p1, p2, p3, _⟩ := step_other toLowerCase s s1 _ hs
      ⟨fun _ _ h => (by cases h), fun _ h => (by cases h)⟩
    unfold Coordinated
    rw [p1, p2, p3]
    exact h
  | showNotification c =>
    obtain ⟨p1, p2, p3, _⟩ := step_other toLowerCase s s1 _ hs
      ⟨fun _ _ h => (by cases h), fun _ h => (by cases h)⟩
    unfold Coordinated
    rw [p1, p2, p3]
    exact h
  | clearHistory =>
    obtain ⟨p1, p2, p3, _⟩ := step_other toLowerCase s s1 _ hs
      ⟨fun _ _ h => (by cases h), fun _ h => (by cases h)⟩
    unfold Coordinated
    rw [p1, p2, p3]
    exact h
  | submit form =>
    obtain ⟨p1, p2, p3, _⟩ := step_other toLowerCase s s1 _ hs
      ⟨fun _ _ h => (by cases h), fun _ h => (by cases h)⟩
    unfold Coordinated
    rw [p1, p2, p3]
    exact h
  | resize t w =>
    obtain ⟨p1, p2, p3, _⟩ := step_other toLowerCase s s1 _ hs
      ⟨fun _ _ h => (by cases h), fun _ h => (by cases h)⟩
    unfold Coordinated
    rw [p1, p2, p3]
    exact h
  | mutation ms =>
    obtain ⟨p1, p2, p3, _⟩ := step_other toLowerCase s s1 _ hs
      ⟨fun _ _ h => (by cases h), fun _ h => (by cases h)⟩
    unfold Coordinated
    rw [p1, p2, p3]
    exact h

theorem run_cons (toLowerCase : JSString → JSString) (s s2 : State) (e : Event)
    (es : List Event) (h : run toLowerCase s (e :: es) = some s2) :
    ∃ s1, step toLowerCase s e = some s1 ∧ run toLowerCase s1 es = some s2 := by
  simp only [run] at h
  split at h
  · cases h
  · rename_i s1 h1
    exact ⟨s1, h1, h⟩

theorem run_append (toLowerCase : JSString → JSString) (es1 es2 : List Event) :
    ∀ (s s2 : State), run toLowerCase s (es1 ++ es2) = some s2 →
      ∃ s1, run toLowerCase s es1 = some s1 ∧ run toLowerCase s1 es2 = some s2 := by
  induction es1 with
  | nil => intro s s2 h; exact ⟨s, rfl, h⟩
  | cons e es ih =>
    intro s s2 h
    obtain ⟨s1, h1, h2⟩ := run_cons toLowerCase s s2 e (es ++ es2) h
    obtain ⟨s3, h3, h4⟩ := ih s1 s2 h2
    exact ⟨s3, by simp only [run, h1, h3], h4⟩

theorem coordinated_run (toLowerCase : JSString → JSString) (es : List Event) :
    ∀ (s s1 : State), Coordinated s → run toLowerCase s es = some s1 → Coordinated s1 := by
  induction es with
  | nil => intro s s1 h hr; cases hr; exact h
  | cons e es ih =>
    intro s s1 h hr
    obtain ⟨s2, h1, h2⟩ := run_cons toLowerCase s s1 e es hr
    exact ih s2 s1 (coordinated_step toLowerCase s s2 e h h1) h2

theorem timerEvent_steady (e : Event) (h : timerEvent e = true) : steady e = true := by
  cases e <;> simp [timerEvent] at h <;> rfl

theorem settings_of_config (s s1 s2 : State) (h : s2.config = s1.config)
    (hc : s1.config.urlInputWidthThreshold = s.config.urlInputWidthThreshold ∧
      s1.config.checkDelay = s.config.checkDelay) :
    s2.config.urlInputWidthThreshold = s.config.urlInputWidthThreshold ∧
      s2.config.checkDelay = s.config.checkDelay :=
  ⟨(congrArg Config.urlInputWidthThreshold h).trans hc.1,
    (congrArg Config.checkDelay h).trans hc.2⟩

theorem notify_quiet (m : JSString) (s : State) :
    (notify m s).evaluations = s.evaluations ∧ (notify m s).derived = s.derived ∧
    (notify m s).dispatched = s.dispatched ∧ (notify m s).now = s.now := by
  unfold notify
  split
  · exact ⟨rfl, rfl, rfl, rfl⟩
  · exact ⟨rfl, rfl, rfl, rfl⟩

theorem submitLoop_layout (toLowerCase : JSString → JSString) (cfg : Config) (form : Nat)
    (l : List Field) :
    ∀ (seen : List JSString) (dup : Bool),
      (submitLoop toLowerCase cfg form l seen dup).1.map
          (fun f => (f.offsetWidth, f.rows, f.listeners)) =
        l.map (fun f => (f.offsetWidth, f.rows, f.listeners)) := by
  induction l with
  | nil => intro seen dup; rfl
  | cons a rest ih =>
    intro seen dup
    rw [submitLoop_cons]
    simp only [List.map_cons, ih]
    congr 1
    split
    · rfl
    · split
      · split <;> rfl
      · rfl

/-- A change of a checkbox, a click on the clear button and a submission leave the layout,
the width threshold, the debounce delay, the timers of the debounce, the logs and the
clock as they were. -/
theorem step_steady (toLowerCase : JSString → JSString) (s s1 : State) (e : Event)
    (hs : step toLowerCase s e = some s1) (he : steady e = true) (ht : timerEvent e = false) :
    layout s1 = layout s ∧
    s1.config.urlInputWidthThreshold = s.config.urlInputWidthThreshold ∧
    s1.config.checkDelay = s.config.checkDelay ∧
    pendingChecks s1 = pendingChecks s ∧ s1.checkTimeout = s.checkTimeout ∧
    s1.evaluations = s.evaluations ∧ s1.derived = s.derived ∧
    s1.dispatched = s.dispatched ∧ s1.now = s.now := by
  cases e with
  | edit t v => simp [steady] at he
  | resize t w => simp [steady] at he
  | mutation ms => simp [steady] at he
  | advance dt => simp [timerEvent] at ht
  | fire k => simp [timerEvent] at ht
  | caseSensitive c =>
    simp only [step, Option.some.injEq] at hs
    subst hs
    exact ⟨rfl, rfl, rfl, rfl, rfl, rfl, rfl, rfl, rfl⟩
  | checkSubmit c =>
    simp only [step, Option.some.injEq] at hs
    subst hs
    exact ⟨rfl, rfl, rfl, rfl, rfl, rfl, rfl, rfl, rfl⟩
  | showNotification c =>
    simp only [step, Option.some.injEq] at hs
    subst hs
    exact ⟨rfl, rfl, rfl, rfl, rfl, rfl, rfl, rfl, rfl⟩
  | clearHistory =>
    simp only [step, Option.some.injEq] at hs
    subst hs
    obtain ⟨h1, h2, _, _, h5, h6⟩ := notify_frame "历史记录已清除".toList
      ({ s with
        inputHistory := []
        fields := s.fields.map
          (fun el => { el with backgroundColor := s.config.normalColor }) } : State)
    obtain ⟨k1, k2, k3, k4⟩ := notify_quiet "历史记录已清除".toList
      ({ s with
        inputHistory := []
        fields := s.fields.map
          (fun el => { el with backgroundColor := s.config.normalColor }) } : State)
    refine ⟨?_, congrArg Config.urlInputWidthThreshold h6, congrArg Config.checkDelay h6,
      h1, h2, k1, k2, k3, k4⟩
    show (clearHistoryClick s).fields.map _ = _
    unfold clearHistoryClick
    rw [h5]
    simp [layout]
  | submit form =>
    simp only [step, Option.some.injEq] at hs
    subst hs
    obtain ⟨h1, h2, _, _⟩ := handleSubmit_frame toLowerCase form s
    refine ⟨?_, ?_, ?_, h1, h2, ?_, ?_, ?_, ?_⟩
    all_goals unfold handleSubmit
    all_goals split
    all_goals try rfl
    all_goals simp only
    all_goals split
    all_goals first
      | rfl
      | exact (notify_quiet _ _).1
      | exact (notify_quiet _ _).2.1
      | exact (notify_quiet _ _).2.2.1
      | exact (notify_quiet _ _).2.2.2
      | exact congrArg Config.urlInputWidthThreshold (notify_frame _ _).2.2.2.2.2
      | exact congrArg Config.checkDelay (notify_frame _ _).2.2.2.2.2
      | (show List.map _ (notify _ _).fields = _
         rw [(notify_frame _ _).2.2.2.2.1]
         exact submitLoop_layout toLowerCase s.config form s.fields [] false)
      | exact submitLoop_layout toLowerCase s.config form s.fields [] false

/-- While no field is edited or resized and no node inserted, the states after an edit
stay among those `After` describes; the clock moves by the time the event lets pass. -/
theorem after_step (toLowerCase : JSString → JSString) (s : State) (B due : Nat)
    (s1 s2 : State) (e : Event) (h : After s B due s1) (he : steady e = true)
    (hs : step toLowerCase s1 e = some s2) :
    After s B due s2 ∧ s2.now = s1.now + elapsed e := by
  obtain ⟨hl, hcfg, hph⟩ := h
  have hother : timerEvent e = false → After s B due s2 ∧ s2.now = s1.now + elapsed e := by
    intro ht
    obtain ⟨k1, k2, k3, k4, k5, k6, k7, k8, k9⟩ := step_steady toLowerCase s1 s2 e hs he ht
    refine ⟨⟨k1.trans hl, ⟨k2.trans hcfg.1, k3.trans hcfg.2⟩, ?_⟩, ?_⟩
    · rw [k4, k5, k6, k7, k8]
      exact hph
    · rw [k9]
      cases e <;> first | rfl | simp [timerEvent] at ht
  cases e with
  | edit t v => simp [steady] at he
  | resize t w => simp [steady] at he
  | mutation ms => simp [steady] at he
  | caseSensitive c => exact hother rfl
  | checkSubmit c => exact hother rfl
  | showNotification c => exact hother rfl
  | clearHistory => exact hother rfl
  | submit form => exact hother rfl
  | advance dt =>
    simp only [step, Option.some.injEq] at hs
    subst hs
    exact ⟨⟨hl, hcfg, hph⟩, rfl⟩
  | fire k =>
    obtain ⟨t, ht, _, rfl⟩ := step_fire toLowerCase s1 s2 k hs
    by_cases hc : isCheck t = true
    · obtain ⟨i, hi⟩ := (isCheck_iff t).mp hc
      have hmem : t ∈ pendingChecks s1 := List.mem_filter.mpr ⟨List.getElem?_mem ht, hc⟩
      have hkey : ∀ tm, pendingChecks s1 = [tm] → tm = t ∧
          pendingChecks ({ s1 with timers := s1.timers.eraseIdx k } : State) = [] ∧
          Owned ({ s1 with timers := s1.timers.eraseIdx k } : State) := by
        intro tm htm
        obtain ⟨e1, e2⟩ := filter_eraseIdx_of_singleton isCheck s1.timers k t tm ht hc htm
        refine ⟨e1, e2, ?_⟩
        intro x hx
        have hx1 : x ∈ List.filter isCheck (s1.timers.eraseIdx k) := hx
        rw [e2] at hx1; cases hx1
      rw [hi]
      change After s B due (evaluate toLowerCase i _) ∧ (evaluate toLowerCase i _).now = _
      rcases hph with ⟨p1, p2, p3, n, p4, _⟩ | ⟨hws, hds, ⟨p1, p4⟩ | ⟨L, _, _, p4⟩⟩
      · -- the edit's timer fires
        obtain ⟨e1, e2, hO⟩ := hkey _ p4
        have hiB : i = B := by
          rw [← e1] at hi
          simp only [Callback.check.injEq] at hi
          exact hi.symm
        subst hiB
        obtain ⟨r1, r2, r3, r4, _, ⟨ws, r6, hw⟩, ⟨ds, r7, hd⟩, r8⟩ :=
          evaluate_spec toLowerCase i _ hO
        refine ⟨⟨r2.trans hl, settings_of_config _ _ _ r3 hcfg,
          Or.inr ⟨⟨ws, by rw [r6]; exact congrArg (· ++ ws) p2, hw⟩,
          ⟨ds, by rw [r7]; exact congrArg (· ++ ds) p3, hd⟩, Or.inl ⟨?_, ?_⟩⟩⟩, r4⟩
        · rw [r1]; exact congrArg (· ++ [i]) p1
        · rcases r8 with ⟨q1, _, _⟩ | ⟨L, n1, q0, q1, q2, _⟩
          · left; rw [q1]; exact e2
          · right
            refine ⟨L, n1, _, ?_, q1, q2⟩
            rw [← q0]
            exact (derivedTarget_congr s _ i hl hcfg.1).symm
      · rcases p4 with p4 | ⟨L, n, d, q0, p4, _⟩
        · rw [p4] at hmem; cases hmem
        · -- the level field's timer fires
          obtain ⟨e1, e2, _⟩ := hkey _ p4
          have hiL : i = L := by
            rw [← e1] at hi
            simp only [Callback.check.injEq] at hi
            exact hi.symm
          subst hiL
          obtain ⟨g, hg, hgw⟩ := derivedTarget_level s B i q0
          have hlev : ∃ g1, s1.fields[i]? = some g1 ∧
              g1.offsetWidth ≤ s1.config.urlInputWidthThreshold := by
            rcases lookup_layout s1.fields s.fields hl i with ⟨_, hb⟩ | ⟨f1, g1, ha, hb, hw1, _, _⟩
            · rw [hg] at hb; cases hb
            · rw [hg] at hb; cases hb
              exact ⟨f1, ha, by rw [hw1, hcfg.1]; exact hgw⟩
          obtain ⟨g1, hg1, hgw1⟩ := hlev
          rw [evaluate_level toLowerCase i ({ s1 with timers := s1.timers.eraseIdx k } : State)
            g1 hg1 hgw1]
          refine ⟨⟨?_, hcfg, Or.inr ⟨hws, hds, Or.inr ⟨i, q0, ?_, e2⟩⟩⟩, rfl⟩
          · exact (layout_modifyAt s1
              (fun g => { g with backgroundColor := s1.config.normalColor }) i
              (fun f => ⟨rfl, rfl, rfl⟩)).trans hl
          · show s1.evaluations ++ [i] = _
            rw [p1]; simp
      · rw [p4] at hmem; cases hmem
    · simp only [Bool.not_eq_true] at hc
      obtain ⟨q1, q2, _, q4, q5, q6, q7, q8, _, q10⟩ := fire_other toLowerCase s1 k t ht hc
      refine ⟨⟨q10.trans hl, settings_of_config _ _ _ q7 hcfg, ?_⟩, q8⟩
      rw [q1, q2, q4, q5, q6]
      exact hph

theorem Waiting.after {s : State} {B due : Nat} {s1 : State} (h : Waiting s B due s1) :
    After s B due s1 :=
  ⟨h.1, h.2.1, Or.inl ⟨h.2.2.1, h.2.2.2.1, h.2.2.2.2.1, h.2.2.2.2.2⟩⟩

theorem after_run (toLowerCase : JSString → JSString) (s : State) (B due : Nat)
    (es : List Event) :
    ∀ (s1 s2 : State), After s B due s1 → (∀ e ∈ es, steady e = true) →
      run toLowerCase s1 es = some s2 →
      After s B due s2 ∧ s2.now = s1.now + (es.map elapsed).sum := by
  induction es with
  | nil => intro s1 s2 h _ hr; cases hr; exact ⟨h, by simp⟩
  | cons e es ih =>
    intro s1 s2 h he hr
    obtain ⟨s3, h1, h2⟩ := run_cons toLowerCase s1 s2 e es hr
    obtain ⟨a1, a2⟩ := after_step toLowerCase s B due s1 s3 e h
      (he e (List.mem_cons_self _ _)) h1
    obtain ⟨b1, b2⟩ := ih s3 s2 a1 (fun x hx => he x (List.mem_cons_of_mem _ hx)) h2
    refine ⟨b1, ?_⟩
    rw [b2, a2]
    simp only [List.map_cons, List.sum_cons]
    omega

/-- A debounce timer does not fire before it is due. -/
theorem waiting_step (toLowerCase : JSString → JSString) (s : State) (B due : Nat)
    (s1 s2 : State) (e : Event) (h : Waiting s B due s1) (he : steady e = true)
    (hs : step toLowerCase s1 e = some s2) (hnow : s1.now < due) :
    Waiting s B due s2 ∧ s2.now = s1.now + elapsed e := by
  obtain ⟨hl, hcfg, p1, p2, p3, n, p4, p5⟩ := h
  have hother : timerEvent e = false → Waiting s B due s2 ∧ s2.now = s1.now + elapsed e := by
    intro ht
    obtain ⟨k1, k2, k3, k4, k5, k6, k7, k8, k9⟩ := step_steady toLowerCase s1 s2 e hs he ht
    refine ⟨⟨k1.trans hl, ⟨k2.trans hcfg.1, k3.trans hcfg.2⟩, k6.trans p1, k7.trans p2,
      k8.trans p3, n, k4.trans p4, k5.trans p5⟩, ?_⟩
    rw [k9]
    cases e <;> first | rfl | simp [timerEvent] at ht
  cases e with
  | edit t v => simp [steady] at he
  | resize t w => simp [steady] at he
  | mutation ms => simp [steady] at he
  | caseSensitive c => exact hother rfl
  | checkSubmit c => exact hother rfl
  | showNotification c => exact hother rfl
  | clearHistory => exact hother rfl
  | submit form => exact hother rfl
  | advance dt =>
    simp only [step, Option.some.injEq] at hs
    subst hs
    exact ⟨⟨hl, hcfg, p1, p2, p3, n, p4, p5⟩, rfl⟩
  | fire k =>
    obtain ⟨t, ht, hdue, rfl⟩ := step_fire toLowerCase s1 s2 k hs
    by_cases hc : isCheck t = true
    · exfalso
      obtain ⟨e1, _⟩ := filter_eraseIdx_of_singleton isCheck s1.timers k t _ ht hc p4
      rw [← e1] at hdue
      exact absurd hdue (Nat.not_le.mpr hnow)
    · simp only [Bool.not_eq_true] at hc
      obtain ⟨q1, q2, _, q4, q5, q6, q7, q8, _, q10⟩ := fire_other toLowerCase s1 k t ht hc
      refine ⟨⟨q10.trans hl, settings_of_config _ _ _ q7 hcfg, q4.trans p1, q5.trans p2,
        q6.trans p3, n,
        q1.trans p4, q2.trans p5⟩, q8⟩

theorem waiting_run (toLowerCase : JSString → JSString) (s : State) (B due : Nat)
    (es : List Event) :
    ∀ (s1 s2 : State), Waiting s B due s1 → (∀ e ∈ es, steady e = true) →
      run toLowerCase s1 es = some s2 → s1.now + (es.map elapsed).sum < due →
      Waiting s B due s2 ∧ s2.now = s1.now + (es.map elapsed).sum := by
  induction es with
  | nil => intro s1 s2 h _ hr _; cases hr; exact ⟨h, by simp⟩
  | cons e es ih =>
    intro s1 s2 h he hr hlt
    simp only [List.map_cons, List.sum_cons] at hlt
    obtain ⟨s3, h1, h2⟩ := run_cons toLowerCase s1 s2 e es hr
    obtain ⟨a1, a2⟩ := waiting_step toLowerCase s B due s1 s3 e h
      (he e (List.mem_cons_self _ _)) h1 (by omega)
    obtain ⟨b1, b2⟩ := ih s3 s2 a1 (fun x hx => he x (List.mem_cons_of_mem _ hx)) h2
      (by rw [a2]; omega)
    refine ⟨b1, ?_⟩
    rw [b2, a2]
    simp only [List.map_cons, List.sum_cons]
    omega

theorem dispatchInput_attached (t : Nat) (s : State) (f : Field) (hf : s.fields[t]? = some f)
    (hl : 0 < f.listeners) : dispatchInput t s = handleInput t s := by
  simp [dispatchInput, hf, hl]

/-- An edit of a field that has the listener leaves its debounce timer as the one pending
debounce timer, due `checkDelay` later. -/
theorem edit_waiting (toLowerCase : JSString → JSString) (s s1 s2 : State) (B : Nat)
    (v : JSString) (fB : Field) (hB : s.fields[B]? = some fB) (hBl : 0 < fB.listeners)
    (hl : layout s1 = layout s)
    (hcfg : s1.config.urlInputWidthThreshold = s.config.urlInputWidthThreshold ∧
      s1.config.checkDelay = s.config.checkDelay)
    (p1 : s1.evaluations = s.evaluations) (p2 : s1.derived = s.derived)
    (p3 : s1.dispatched = s.dispatched) (hO : Owned s1)
    (hs : step toLowerCase s1 (Event.edit B v) = some s2) :
    Waiting s B (s1.now + s.config.checkDelay) s2 ∧ s2.now = s1.now := by
  simp only [step, Option.some.injEq] at hs
  subst hs
  have hB1 : ∃ g, s1.fields[B]? = some g ∧ 0 < g.listeners := by
    rcases lookup_layout s1.fields s.fields hl B with ⟨_, hb⟩ | ⟨f1, g1, ha, hb, _, _, hls⟩
    · rw [hB] at hb; cases hb
    · rw [hB] at hb; cases hb
      exact ⟨f1, ha, by rw [hls]; exact hBl⟩
  obtain ⟨g, hg, hgl⟩ := hB1
  have hO0 : Owned ({ s1 with
      fields := modifyAt (fun f => { f with value := v }) B s1.fields } : State) := hO
  rw [dispatchInput_attached B _ ({ g with value := v })
    (by simp [getElem?_modifyAt_self, hg]) hgl]
  obtain ⟨q1, q2, _, q4, q5, _, q7, q8, q9, q10, _⟩ := handleInput_spec B _ hO0
  refine ⟨⟨?_, settings_of_config s s1 _ q5 hcfg, q8.trans p1, q9.trans p2, q10.trans p3, _, ?_,
    q2⟩, q7⟩
  · unfold layout
    rw [q4]
    exact (layout_modifyAt s1 (fun f => { f with value := v }) B
      (fun f => ⟨rfl, rfl, rfl⟩)).trans hl
  · rw [q1]
    show [Timer.mk s1.nextTimer (s1.now + s1.config.checkDelay) (Callback.check B)] = _
    rw [hcfg.2]

theorem run_append_of (toLowerCase : JSString → JSString) (es1 es2 : List Event) :
    ∀ (s s1 s2 : State), run toLowerCase s es1 = some s1 → run toLowerCase s1 es2 = some s2 →
      run toLowerCase s (es1 ++ es2) = some s2 := by
  induction es1 with
  | nil => intro s s1 s2 h1 h2; cases h1; exact h2
  | cons e es ih =>
    intro s s1 s2 h1 h2
    obtain ⟨s3, h3, h4⟩ := run_cons toLowerCase s s1 e es h1
    simp only [List.cons_append, run, h3]
    exact ih s3 s1 s2 h4 h2

/-- The pending debounce timer of an edit fires once it is due, and its target is then
evaluated. -/
theorem waiting_fires (toLowerCase : JSString → JSString) (s : State) (B due : Nat)
    (s1 : State) (h : Waiting s B due s1) (d : Nat) (hd : due ≤ s1.now + d) :
    ∃ k s2, run toLowerCase s1 [Event.advance d, Event.fire k] = some s2 ∧
      s2.evaluations = s.evaluations ++ [B] := by
  obtain ⟨_, _, p1, _, _, n, p4, _⟩ := h
  have hmem : ({ id := n, due := due, callback := Callback.check B } : Timer) ∈
      pendingChecks s1 := by rw [p4]; exact List.mem_singleton.mpr rfl
  obtain ⟨k, hk⟩ := List.getElem?_of_mem (List.mem_filter.mp hmem).1
  have hO : Owned ({ s1 with now := s1.now + d, timers := s1.timers.eraseIdx k } : State) := by
    intro x hx
    have hx1 : x ∈ List.filter isCheck (s1.timers.eraseIdx k) := hx
    rw [(filter_eraseIdx_of_singleton isCheck s1.timers k _ _ hk rfl p4).2] at hx1
    cases hx1
  refine ⟨k, evaluate toLowerCase B
    { s1 with now := s1.now + d, timers := s1.timers.eraseIdx k }, ?_, ?_⟩
  · simp only [run, step, hk, hd, if_true]
    rfl
  · rw [(evaluate_spec toLowerCase B _ hO).1]
    exact congrArg (· ++ [B]) p1

theorem coordinated_initialState (cfg : Config) (fields : List Field) :
    Coordinated (initialState cfg fields) := Or.inl rfl

/-- C5, as the code has it. From the start of the script, whatever happens, at most one
debounce timer is pending, and its target is the target of the latest `handleInput` call.
When a field `A` is edited, then a field `B` less than `checkDelay` later, and in between
and from then on no field is edited, no field is resized and no node is inserted (time
passes, timers fire, checkboxes change, the history is cleared, forms are submitted): the
debounce stays coordinated; either nothing has been evaluated yet and the timer of `B` is
pending, or `B` has been evaluated once, or `B` and then the level field of the row of
`B` have been evaluated once each, that second evaluation being the one the synthetic
`input` event of the first schedules.  So `A`, unless it is `B` or that level field, is
not evaluated.  The timer of `B` does fire once `checkDelay` has passed, and `B` is then
evaluated. -/
theorem debounce_coalescing (toLowerCase : JSString → JSString) (s : State) (A B : Nat)
    (vA vB : JSString) (fA fB : Field) (mid rest : List Event) (s1 : State)
    (hs : Coordinated s)
    (hA : s.fields[A]? = some fA) (hAl : 0 < fA.listeners)
    (hB : s.fields[B]? = some fB) (hBl : 0 < fB.listeners)
    (hmid : ∀ e ∈ mid, steady e = true) (hrest : ∀ e ∈ rest, steady e = true)
    (hgap : (mid.map elapsed).sum < s.config.checkDelay)
    (hrun : run toLowerCase s (Event.edit A vA :: (mid ++ Event.edit B vB :: rest)) = some s1) :
    (∀ cfg fields es s2, run toLowerCase (initialState cfg fields) es = some s2 →
      (pendingChecks s2).length ≤ 1 ∧
      ∀ tm ∈ pendingChecks s2, ∃ target, tm.callback = Callback.check target ∧
        s2.handled.getLast? = some target) ∧
    Coordinated s1 ∧
    ((s1.evaluations = s.evaluations ∧
        ∃ n, pendingChecks s1 =
          [{ id := n, due := s.now + (mid.map elapsed).sum + s.config.checkDelay,
             callback := Callback.check B }]) ∨
      (s1.evaluations = s.evaluations ++ [B] ∧
        (pendingChecks s1 = [] ∨
          ∃ L n d, derivedTarget s B = some L ∧
            pendingChecks s1 = [{ id := n, due := d, callback := Callback.check L }])) ∨
      (∃ L, derivedTarget s B = some L ∧ s1.evaluations = s.evaluations ++ [B, L] ∧
        pendingChecks s1 = [])) ∧
    (A ≠ B → derivedTarget s B ≠ some A →
      s1.evaluations.count A = s.evaluations.count A) ∧
    (∃ k s2,
      run toLowerCase s
          (Event.edit A vA ::
            (mid ++ [Event.edit B vB, Event.advance s.config.checkDelay, Event.fire k])) =
        some s2 ∧
      s2.evaluations = s.evaluations ++ [B]) := by
  -- the run, cut at the two edits
  obtain ⟨sA, hsA, hr1⟩ := run_cons toLowerCase s s1 _ _ hrun
  obtain ⟨sM, hsM, hr2⟩ := run_append toLowerCase mid _ sA s1 hr1
  obtain ⟨sB, hsB, hr3⟩ := run_cons toLowerCase sM s1 _ _ hr2
  -- after the edit of A
  obtain ⟨wA, nA⟩ := edit_waiting toLowerCase s s sA A vA fA hA hAl rfl ⟨rfl, rfl⟩ rfl rfl rfl
    hs.owned hsA
  -- until the edit of B
  obtain ⟨wM, nM⟩ := waiting_run toLowerCase s A _ mid sA sM wA hmid hsM (by rw [nA]; omega)
  have hOM : Owned sM := by
    obtain ⟨_, _, _, _, _, n, p4, p5⟩ := wM
    intro tm htm
    rw [p4] at htm
    simp only [List.mem_singleton] at htm
    rw [htm]; exact p5
  -- after the edit of B
  obtain ⟨wB, nB⟩ := edit_waiting toLowerCase s sM sB B vB fB hB hBl wM.1 wM.2.1 wM.2.2.1
    wM.2.2.2.1 wM.2.2.2.2.1 hOM hsB
  have hdue : sM.now + s.config.checkDelay =
      s.now + (mid.map elapsed).sum + s.config.checkDelay := by rw [nM, nA]
  rw [hdue] at wB
  obtain ⟨⟨_, _, hph⟩, _⟩ := after_run toLowerCase s B _ rest sB s1 wB.after hrest hr3
  have hshape : (s1.evaluations = s.evaluations ∧
        ∃ n, pendingChecks s1 =
          [{ id := n, due := s.now + (mid.map elapsed).sum + s.config.checkDelay,
             callback := Callback.check B }]) ∨
      (s1.evaluations = s.evaluations ++ [B] ∧
        (pendingChecks s1 = [] ∨
          ∃ L n d, derivedTarget s B = some L ∧
            pendingChecks s1 = [{ id := n, due := d, callback := Callback.check L }])) ∨
      (∃ L, derivedTarget s B = some L ∧ s1.evaluations = s.evaluations ++ [B, L] ∧
        pendingChecks s1 = []) := by
    rcases hph with ⟨p1, _, _, n, p4, _⟩ | ⟨_, _, ⟨p1, p4⟩ | ⟨L, q0, p1, p4⟩⟩
    · exact Or.inl ⟨p1, n, p4⟩
    · refine Or.inr (Or.inl ⟨p1, ?_⟩)
      rcases p4 with p4 | ⟨L, n, d, q0, p4, _⟩
      · exact Or.inl p4
      · exact Or.inr ⟨L, n, d, q0, p4⟩
    · exact Or.inr (Or.inr ⟨L, q0, p1, p4⟩)
  refine ⟨?_, coordinated_run toLowerCase _ s s1 hs hrun, hshape, ?_, ?_⟩
  · intro cfg fields es s2 h2
    rcases coordinated_run toLowerCase es _ s2 (coordinated_initialState cfg fields) h2 with
      h | ⟨tm, target, h, _, hc, hl⟩
    · rw [h]; exact ⟨by simp, fun tm htm => by cases htm⟩
    · rw [h]
      refine ⟨by simp, fun x hx => ?_⟩
      simp only [List.mem_singleton] at hx
      rw [hx]; exact ⟨target, hc, hl⟩
  · intro hAB hAL
    rcases hshape with ⟨p1, _⟩ | ⟨p1, _⟩ | ⟨L, q0, p1, _⟩
    · rw [p1]
    · rw [p1, List.count_append]
      simp [List.count_cons, Ne.symm hAB]
    · have hLA : L ≠ A := fun h => hAL (h ▸ q0)
      rw [p1, List.count_append]
      simp [List.count_cons, Ne.symm hAB, hLA]
  · obtain ⟨k, s2, h2, h3⟩ := waiting_fires toLowerCase s B _ sB wB s.config.checkDelay
      (by rw [nB, nM, nA])
    refine ⟨k, s2, ?_, h3⟩
    have hpre : run toLowerCase s (Event.edit A vA :: (mid ++ [Event.edit B vB])) = some sB := by
      simp only [run, hsA]
      exact run_append_of toLowerCase mid [Event.edit B vB] sA sM sB hsM
        (by simp only [run, hsB])
    have := run_append_of toLowerCase _ _ s sB s2 hpre h2
    simpa using this

/-- C5 at the page of a URL field, its level field and a further content field: the
content field is edited, then the URL field 100 ms later, then only timers fire. -/
theorem debounce_coalescing_witness :
    ∃ k s2,
      run toLowerCaseASCII examplePage
          (Event.edit 2 "a".toList ::
            ([Event.advance 100] ++
              [Event.edit 0 "a.com/x".toList, Event.advance examplePage.config.checkDelay,
                Event.fire k])) = some s2 ∧
      s2.evaluations = examplePage.evaluations ++ [0] :=
  (debounce_coalescing toLowerCaseASCII examplePage 2 0 "a".toList "a.com/x".toList
    (fieldOf 200 "") (rowField 200 "") [Event.advance 100]
    [Event.advance 500, Event.fire 0]
    (evaluate toLowerCaseASCII 0
      { (handleInput 0
          { (handleInput 2
              { examplePage with
                fields := modifyAt (fun f => { f with value := "a".toList }) 2
                  examplePage.fields }) with
            now := 100
            fields := modifyAt (fun f => { f with value := "a.com/x".toList }) 0
              (modifyAt (fun f => { f with value := "a".toList }) 2 examplePage.fields) }) with
        now := 600
        timers := [] })
    (coordinated_initialState _ _) rfl (by decide) rfl (by decide)
    (by decide) (by decide) (by decide) (by decide)).2.2.2.2

/-- C5 as stated fails: the same two edits, once their timer and the one it schedules
have fired, have led to two evaluations, of the URL field and of its level field.  When a
reflow widens that level field before its timer fires, a third evaluation follows, of the
next level field of the row. -/
theorem debounce_two_evaluations :
    (run toLowerCaseASCII examplePage
        [Event.edit 2 "a".toList, Event.advance 100, Event.edit 0 "a.com/x".toList,
          Event.advance 500, Event.fire 0, Event.advance 500, Event.fire 0]).map
      (fun s => s.evaluations) = some [0, 1] ∧
    (run toLowerCaseASCII reflowPage
        [Event.edit 3 "a".toList, Event.advance 100, Event.edit 0 "a.com/x".toList,
          Event.advance 500, Event.fire 0, Event.resize 1 200, Event.advance 500, Event.fire 0,
          Event.advance 500, Event.fire 1]).map
      (fun s => s.evaluations) = some [0, 1, 2] := by
  decide

/-- The history never holds a blank value, and the debounce stays coordinated. -/
theorem history_step (toLowerCase : JSString → JSString) (s s1 : State) (e : Event)
    (hc : Coordinated s) (h : ∀ x ∈ s.inputHistory, trim x ≠ [])
    (hs : step toLowerCase s e = some s1) : ∀ x ∈ s1.inputHistory, trim x ≠ [] := by
  cases e with
  | edit t v =>
    simp only [step, Option.some.injEq] at hs
    subst hs
    have h0 : Coordinated ({ s with
        fields := modifyAt (fun f => { f with value := v }) t s.fields } : State) := hc
    rcases dispatchInput_cases t ({ s with
        fields := modifyAt (fun f => { f with value := v }) t s.fields } : State) with hd | ⟨_, hd⟩
    · rw [hd]; exact h
    · rw [hd, (handleInput_spec t _ h0.owned).2.2.2.2.2.1]; exact h
  | advance dt =>
    intro x hx
    exact h x ((step_other toLowerCase s s1 _ hs
      ⟨fun _ _ h => (by cases h), fun _ h => (by cases h)⟩).2.2.2 x hx)
  | caseSensitive c =>
    intro x hx
    exact h x ((step_other toLowerCase s s1 _ hs
      ⟨fun _ _ h => (by cases h), fun _ h => (by cases h)⟩).2.2.2 x hx)
  | checkSubmit c =>
    intro x hx
    exact h x ((step_other toLowerCase s s1 _ hs
      ⟨fun _ _ h => (by cases h), fun _ h => (by cases h)⟩).2.2.2 x hx)
  | showNotification c =>
    intro x hx
    exact h x ((step_other toLowerCase s s1 _ hs
      ⟨fun _ _ h => (by cases h), fun _ h => (by cases h)⟩).2.2.2 x hx)
  | clearHistory =>
    intro x hx
    exact h x ((step_other toLowerCase s s1 _ hs
      ⟨fun _ _ h => (by cases h), fun _ h => (by cases h)⟩).2.2.2 x hx)
  | submit form =>
    intro x hx
    exact h x ((step_other toLowerCase s s1 _ hs
      ⟨fun _ _ h => (by cases h), fun _ h => (by cases h)⟩).2.2.2 x hx)
  | resize t w =>
    intro x hx
    exact h x ((step_other toLowerCase s s1 _ hs
      ⟨fun _ _ h => (by cases h), fun _ h => (by cases h)⟩).2.2.2 x hx)
  | mutation ms =>
    intro x hx
    exact h x ((step_other toLowerCase s s1 _ hs
      ⟨fun _ _ h => (by cases h), fun _ h => (by cases h)⟩).2.2.2 x hx)
  | fire k =>
    obtain ⟨t, ht, _, rfl⟩ := step_fire toLowerCase s s1 k hs
    by_cases hck : isCheck t = true
    · obtain ⟨i, hi⟩ := (isCheck_iff t).mp hck
      have hmem : t ∈ pendingChecks s := List.mem_filter.mpr ⟨List.getElem?_mem ht, hck⟩
      rcases hc with hc | ⟨tm, _, hc, _, _, _⟩
      · rw [hc] at hmem; cases hmem
      · obtain ⟨_, hp0⟩ := filter_eraseIdx_of_singleton isCheck s.timers k t tm ht hck hc
        have hO : Owned ({ s with timers := s.timers.eraseIdx k } : State) := by
          intro x hx
          have hx1 : x ∈ List.filter isCheck (s.timers.eraseIdx k) := hx
          rw [hp0] at hx1; cases hx1
        rw [hi]
        intro x hx
        rcases (evaluate_spec toLowerCase i _ hO).2.2.2.2.1 x hx with hx | hx
        · exact h x hx
        · exact hx
    · simp only [Bool.not_eq_true] at hck
      rw [(fire_other toLowerCase s k t ht hck).2.2.2.2.2.2.2.2.1]
      exact h

theorem history_run (toLowerCase : JSString → JSString) (es : List Event) :
    ∀ (s s1 : State), Coordinated s → (∀ x ∈ s.inputHistory, trim x ≠ []) →
      run toLowerCase s es = some s1 → ∀ x ∈ s1.inputHistory, trim x ≠ [] := by
  induction es with
  | nil => intro s s1 _ h hr; cases hr; exact h
  | cons e es ih =>
    intro s s1 hc h hr
    obtain ⟨s2, h1, h2⟩ := run_cons toLowerCase s s1 e es hr
    exact ih s2 s1 (coordinated_step toLowerCase s s2 e hc h1)
      (history_step toLowerCase s s2 e hc h h1) h2

/-- C8. On a field no wider than the threshold (a width equal to the threshold included)
and on a field of any width whose normalized value is blank, `checkForDuplicates` returns
false, sets the normal colour, emits no notification and leaves the history as it was,
whatever the history holds.  So no sequence of detector calls from the empty history, and
no sequence of events on the page from the start of the script, puts a blank value into
the history. -/
theorem checkForDuplicates_guards (toLowerCase : JSString → JSString) (cfg : Config)
    (h : List JSString) (el : Field)
    (hg : el.offsetWidth ≤ cfg.urlInputWidthThreshold ∨
      trim (normalized toLowerCase cfg el) = []) :
    checkForDuplicates toLowerCase cfg h el =
      { element := { el with backgroundColor := cfg.normalColor }
        inputHistory := h, notifications := [], result := false } ∧
    (∀ (calls : List Field), ∀ r ∈ checkSequence toLowerCase cfg [] calls,
      ∀ x ∈ r.inputHistory, trim x ≠ []) ∧
    (∀ (cfg0 : Config) (fields : List Field) (es : List Event) (s1 : State),
      run toLowerCase (initialState cfg0 fields) es = some s1 →
      ∀ x ∈ s1.inputHistory, trim x ≠ []) := by
  refine ⟨?_, ?_, ?_⟩
  · rcases hg with hg | hg
    · exact checkForDuplicates_level toLowerCase cfg h el hg
    · exact checkForDuplicates_blank toLowerCase cfg h el hg
  · intro calls
    exact checkSequence_no_blank toLowerCase cfg calls [] (fun x hx => by cases hx)
  · intro cfg0 fields es s1 hr
    exact history_run toLowerCase es _ s1 (coordinated_initialState cfg0 fields)
      (fun x hx => by cases hx) hr

/-- C8 at a field exactly as wide as the threshold whose value is in the history. -/
theorem checkForDuplicates_guards_witness :
    checkForDuplicates toLowerCaseASCII CONFIG ["x".toList] (fieldOf 150 "x") =
      { element := { fieldOf 150 "x" with backgroundColor := CONFIG.normalColor }
        inputHistory := ["x".toList], notifications := [], result := false } :=
  (checkForDuplicates_guards toLowerCaseASCII CONFIG ["x".toList] (fieldOf 150 "x")
    (Or.inl (by decide))).1

/-- C6 fails on the code. Two calls in a row write the same level and the same transient
colour as one call, but once every pending timer has fired the level field has its
original background after one call and the highlight colour `#d4f7d4` after two: the
second call takes the highlight for the original colour.  The same happens on the page
when the URL field is edited, its timer fires, and it is edited again 100 ms later: once
every timer has fired, in the order they are due, the level field is left highlighted,
whereas after the first edit alone it gets its background back. -/
theorem updateLevelByURL_twice_stays_highlighted :
    derivedOnce.fields[1]? =
      some { rowField 100 "1" with backgroundColor := pulseColor } ∧
    derivedTwice.fields[1]? =
      some { rowField 100 "1" with backgroundColor := pulseColor } ∧
    (run toLowerCaseASCII derivedOnce
        [Event.advance 500, Event.fire 0, Event.advance 500, Event.fire 0]).map
      (fun s => (s.timers, s.fields[1]?)) = some ([], some (rowField 100 "1")) ∧
    (run toLowerCaseASCII derivedTwice
        [Event.advance 500, Event.fire 1, Event.advance 500, Event.fire 0, Event.fire 0]).map
      (fun s => (s.timers, s.fields[1]?)) =
      some ([], some { rowField 100 "1" with backgroundColor := pulseColor }) ∧
    (run toLowerCaseASCII (exampleRow "")
        [Event.edit 0 "a.com/x".toList, Event.advance 500, Event.fire 0,
          Event.advance 3000, Event.fire 0, Event.fire 0]).map
      (fun s => (s.timers, s.fields[1]?)) = some ([], some (rowField 100 "1")) ∧
    (run toLowerCaseASCII (exampleRow "")
        [Event.edit 0 "a.com/x".toList, Event.advance 500, Event.fire 0,
          Event.advance 100, Event.edit 0 "a.com/x".toList, Event.advance 500, Event.fire 1,
          Event.advance 3000, Event.fire 0, Event.fire 1, Event.fire 1, Event.fire 0]).map
      (fun s => (s.timers, s.fields[1]?)) =
      some ([], some { rowField 100 "1" with backgroundColor := pulseColor }) := by
  decide

/-- What `updateLevelByURL` does when it writes a level into a level field that has the
listener: the synthetic event reaches `handleInput`, whose timer is then the only pending
debounce timer. -/
theorem updateLevelByURL_dispatch (s : State) (B L : Nat) (u g : Field) (hO : Owned s)
    (hB : s.fields[B]? = some u) (hv : trim u.value ≠ [])
    (hL : derivedTarget s B = some L) (hg : s.fields[L]? = some g) (hgl : 0 < g.listeners) :
    pendingChecks (updateLevelByURL B s) =
      [{ id := s.nextTimer, due := s.now + s.config.checkDelay,
         callback := Callback.check L }] ∧
    (updateLevelByURL B s).checkTimeout = some s.nextTimer ∧
    (updateLevelByURL B s).handled = s.handled ++ [L] ∧
    (updateLevelByURL B s).dispatched = s.dispatched ++ [L] ∧
    (updateLevelByURL B s).derived =
      s.derived ++ [(L, numberToString (levelOf (trim u.value)))] := by
  rw [updateLevelByURL_some s B L u hL hB, if_neg hv]
  generalize hs1 : ({ s with
      fields := modifyAt
        (fun f => { f with value := numberToString (levelOf (trim u.value)) }) L s.fields
      derived := s.derived ++ [(L, numberToString (levelOf (trim u.value)))]
      dispatched := s.dispatched ++ [L] } : State) = s1
  have e1 : s1.fields = modifyAt
      (fun f => { f with value := numberToString (levelOf (trim u.value)) }) L s.fields := by
    rw [← hs1]
  have e2 : s1.derived = s.derived ++ [(L, numberToString (levelOf (trim u.value)))] := by
    rw [← hs1]
  have e3 : s1.dispatched = s.dispatched ++ [L] := by rw [← hs1]
  have e4 : s1.timers = s.timers ∧ s1.checkTimeout = s.checkTimeout ∧
      s1.handled = s.handled ∧ s1.config = s.config ∧ s1.now = s.now ∧
      s1.nextTimer = s.nextTimer := by
    rw [← hs1]
    exact ⟨rfl, rfl, rfl, rfl, rfl, rfl⟩
  obtain ⟨t1, t2, t3, t5, t6, t9⟩ := e4
  have hp1 : pendingChecks s1 = pendingChecks s := by simp only [pendingChecks, t1]
  have hO1 : Owned s1 := by
    intro tm htm
    rw [t2]
    exact hO tm (hp1 ▸ htm)
  have hL1 : s1.fields[L]? =
      some { g with value := numberToString (levelOf (trim u.value)) } := by
    rw [e1, getElem?_modifyAt_self, hg]
    rfl
  rw [dispatchInput_attached L s1 _ hL1 hgl]
  obtain ⟨q1, q2, q3, _, _, _, _, _, q9, q10, _⟩ := handleInput_spec L s1 hO1
  refine ⟨?_, ?_, ?_, ?_, ?_⟩
  · refine (pendingChecks_setTimeout_revert _ _ _ _).trans ?_
    show pendingChecks (handleInput L s1) = _
    rw [q1, t9, t6, t5]
  · show (handleInput L s1).checkTimeout = _
    rw [q2, t9]
  · show (handleInput L s1).handled = _
    rw [q3, t3]
  · show (handleInput L s1).dispatched = _
    rw [q10, e3]
  · show (handleInput L s1).derived = _
    rw [q9, e2]

/-- The debounce callback on a URL field whose level field has the listener: writing the
level schedules exactly one further evaluation, on the level field. -/
theorem evaluate_dispatch (toLowerCase : JSString → JSString) (s : State) (B L : Nat)
    (u g : Field) (hO : Owned s)
    (hB : s.fields[B]? = some u) (hv : trim u.value ≠ [])
    (hL : derivedTarget s B = some L) (hg : s.fields[L]? = some g) (hgl : 0 < g.listeners) :
    ∃ n, pendingChecks (evaluate toLowerCase B s) =
        [{ id := n, due := s.now + s.config.checkDelay, callback := Callback.check L }] ∧
      (evaluate toLowerCase B s).checkTimeout = some n ∧
      (evaluate toLowerCase B s).handled = s.handled ++ [L] ∧
      (evaluate toLowerCase B s).dispatched = s.dispatched ++ [L] ∧
      (evaluate toLowerCase B s).derived =
        s.derived ++ [(L, numberToString (levelOf (trim u.value)))] ∧
      (evaluate toLowerCase B s).evaluations = s.evaluations ++ [B] := by
  unfold evaluate
  have hB0 : ({ s with evaluations := s.evaluations ++ [B] } : State).fields[B]? = some u := hB
  have hg0 : ({ s with evaluations := s.evaluations ++ [B] } : State).fields[L]? = some g := hg
  obtain ⟨_, _, _, _, c5, c6, c7, c8, c9, c10, c11, c12⟩ :=
    checkForDuplicatesAt_spec toLowerCase B _ u hB0
  obtain ⟨cB, hB1⟩ := checkForDuplicatesAt_field toLowerCase B B _ u hB0
  obtain ⟨cL, hL1⟩ := checkForDuplicatesAt_field toLowerCase B L _ g hg0
  have hl1 := checkForDuplicatesAt_layout toLowerCase B
    ({ s with evaluations := s.evaluations ++ [B] } : State)
  generalize (checkForDuplicatesAt toLowerCase B
    ({ s with evaluations := s.evaluations ++ [B] } : State)).1 = s1
    at c5 c6 c7 c8 c9 c10 c11 c12 hB1 hL1 hl1
  have hO1 : Owned s1 := by
    intro tm htm
    rw [c6]
    exact hO tm (by rw [c12] at htm; exact htm)
  have hT1 : derivedTarget s1 B = some L := by
    rw [← hL]
    exact derivedTarget_congr s s1 B hl1 (by rw [c5])
  obtain ⟨r1, r2, r3, r4, r5⟩ := updateLevelByURL_dispatch s1 B L _ _ hO1 hB1 hv hT1 hL1 hgl
  refine ⟨s1.nextTimer, ?_, r2, ?_, ?_, ?_, ?_⟩
  · rw [r1, c7, c5]
  · rw [r3, c8]
  · rw [r4, c11]
  · rw [r5, c10]
  · rw [(updateLevelByURL_spec B s1 hO1).1, c9]

/-- C10. When the debounce callback on a URL field `B` writes a level into the level
field `L` of its row and `L` has the listener, the synthetic `input` event re-enters
`handleInput` with target `L`, whose timer is then the one pending debounce timer.  The
callback on `L`, whenever it runs with `L` no wider than the threshold, only logs the
evaluation and sets the background of `L` to the normal colour: no value, history,
notification, timer or event comes of it.  So after one edit of `B`, while only timers
fire, at most one level is written, at most one event dispatched, and the evaluations are
none, the one of `B`, or the one of `B` followed by the one of `L`. -/
theorem synthetic_event_no_loop (toLowerCase : JSString → JSString) (s : State) (B L : Nat)
    (u g : Field) (hs : Coordinated s)
    (hB : s.fields[B]? = some u) (hBl : 0 < u.listeners)
    (hL : derivedTarget s B = some L) (hg : s.fields[L]? = some g) (hgl : 0 < g.listeners) :
    (trim u.value ≠ [] →
      ∃ n, pendingChecks (evaluate toLowerCase B s) =
          [{ id := n, due := s.now + s.config.checkDelay, callback := Callback.check L }] ∧
        (evaluate toLowerCase B s).handled = s.handled ++ [L] ∧
        (evaluate toLowerCase B s).dispatched = s.dispatched ++ [L] ∧
        (evaluate toLowerCase B s).derived =
          s.derived ++ [(L, numberToString (levelOf (trim u.value)))]) ∧
    (∀ (s1 : State) (f : Field), s1.fields[L]? = some f →
      f.offsetWidth ≤ s1.config.urlInputWidthThreshold →
      evaluate toLowerCase L s1 =
        { s1 with
          evaluations := s1.evaluations ++ [L]
          fields := modifyAt (fun x => { x with backgroundColor := s1.config.normalColor })
            L s1.fields } ∧
      (evaluate toLowerCase L s1).fields.map Field.value = s1.fields.map Field.value) ∧
    (∀ (v : JSString) (rest : List Event) (s1 : State),
      (∀ e ∈ rest, timerEvent e = true) →
      run toLowerCase s (Event.edit B v :: rest) = some s1 →
      (∃ ws, s1.derived = s.derived ++ ws ∧ ws.length ≤ 1) ∧
      (∃ ds, s1.dispatched = s.dispatched ++ ds ∧ ds.length ≤ 1) ∧
      (s1.evaluations = s.evaluations ∨ s1.evaluations = s.evaluations ++ [B] ∨
        s1.evaluations = s.evaluations ++ [B, L])) := by
  refine ⟨?_, ?_, ?_⟩
  · intro hv
    obtain ⟨n, h1, _, h3, h4, h5, _⟩ :=
      evaluate_dispatch toLowerCase s B L u g hs.owned hB hv hL hg hgl
    exact ⟨n, h1, h3, h4, h5⟩
  · intro s1 f hf hw
    rw [evaluate_level toLowerCase L s1 f hf hw]
    exact ⟨rfl, map_modifyAt_of_eq Field.value _ L s1.fields (fun _ => rfl)⟩
  · intro v rest s1 hrest hrun
    obtain ⟨sB, hsB, hr⟩ := run_cons toLowerCase s s1 _ _ hrun
    obtain ⟨wB, _⟩ := edit_waiting toLowerCase s s sB B v u hB hBl rfl ⟨rfl, rfl⟩ rfl rfl rfl
      hs.owned hsB
    obtain ⟨⟨_, _, hph⟩, _⟩ := after_run toLowerCase s B _ rest sB s1 wB.after
      (fun e he => timerEvent_steady e (hrest e he)) hr
    rcases hph with ⟨p1, p2, p3, _⟩ | ⟨hws, hds, ⟨p1, _⟩ | ⟨L1, q0, p1, _⟩⟩
    · exact ⟨⟨[], by simp [p2], by simp⟩, ⟨[], by simp [p3], by simp⟩, Or.inl p1⟩
    · exact ⟨hws, hds, Or.inr (Or.inl p1)⟩
    · rw [hL] at q0
      cases q0
      exact ⟨hws, hds, Or.inr (Or.inr p1)⟩

/-- C10 at the row of a URL field valued `a.com/x` and its level field. -/
theorem synthetic_event_no_loop_witness :
    ∃ n, pendingChecks (evaluate toLowerCaseASCII 0 (exampleRow "a.com/x")) =
        [{ id := n, due := 0 + 500, callback := Callback.check 1 }] ∧
      (evaluate toLowerCaseASCII 0 (exampleRow "a.com/x")).handled = [] ++ [1] ∧
      (evaluate toLowerCaseASCII 0 (exampleRow "a.com/x")).dispatched = [] ++ [1] ∧
      (evaluate toLowerCaseASCII 0 (exampleRow "a.com/x")).derived =
        [] ++ [(1, numberToString (levelOf (trim (rowField 200 "a.com/x").value)))] :=
  (synthetic_event_no_loop toLowerCaseASCII (exampleRow "a.com/x") 0 1
    (rowField 200 "a.com/x") (rowField 100 "9") (coordinated_initialState _ _)
    rfl (by decide) (by decide) rfl (by decide)).1 (by decide)

/-! ## Attachment -/

theorem observerCallback_nil (fields : List Field) : observerCallback [] fields = fields := rfl

theorem observerCallback_cons (m : MutationRecord) (ms : List MutationRecord)
    (fields : List Field) :
    observerCallback (m :: ms) fields =
      observerCallback ms (if m.addedNodes.length ≠ 0 then rescan fields else fields) := by
  simp only [observerCallback, List.foldl_cons, rescan]

theorem rescan_append (a b : List Field) : rescan (a ++ b) = rescan a ++ rescan b := by
  simp [rescan]

theorem observerCallback_append (ms : List MutationRecord) :
    ∀ a b : List Field,
      observerCallback ms (a ++ b) = observerCallback ms a ++ observerCallback ms b := by
  induction ms with
  | nil => intro a b; rfl
  | cons m ms ih =>
    intro a b
    simp only [observerCallback_cons]
    split
    · rw [rescan_append, ih]
    · rw [ih]

theorem rescan_attached (l : List Field) (h : ∀ f ∈ l, f.listenerAdded = true) :
    rescan l = l := by
  unfold rescan
  conv_rhs => rw [← List.map_id l]
  apply List.map_congr_left
  intro f hf
  simp [h f hf]

theorem observerCallback_attached (ms : List MutationRecord) (l : List Field)
    (h : ∀ f ∈ l, f.listenerAdded = true) : observerCallback ms l = l := by
  induction ms with
  | nil => rfl
  | cons m ms ih =>
    rw [observerCallback_cons]
    split
    · rw [rescan_attached l h, ih]
    · exact ih

theorem rescan_marked (l : List Field) : ∀ f ∈ rescan l, f.listenerAdded = true := by
  intro f hf
  simp only [rescan, List.mem_map] at hf
  obtain ⟨g, _, rfl⟩ := hf
  by_cases hg : g.listenerAdded = true
  · simp [hg]
  · simp only [Bool.not_eq_true] at hg
    simp [hg, attach]

/-- The callback scans when a record has added nodes, and a second scan changes nothing. -/
theorem observerCallback_eq (ms : List MutationRecord) (l : List Field) :
    observerCallback ms l = if ∃ m ∈ ms, m.addedNodes ≠ [] then rescan l else l := by
  induction ms generalizing l with
  | nil => simp [observerCallback_nil]
  | cons m ms ih =>
    rw [observerCallback_cons]
    by_cases hm : m.addedNodes.length ≠ 0
    · have hne : m.addedNodes ≠ [] := fun h => hm (by simp [h])
      rw [if_pos hm, observerCallback_attached ms (rescan l) (rescan_marked l),
        if_pos ⟨m, List.mem_cons_self _ _, hne⟩]
    · have he : m.addedNodes = [] := by
        simp only [ne_eq, Decidable.not_not, List.length_eq_zero] at hm
        exact hm
      rw [if_neg hm, ih]
      by_cases hex : ∃ m1 ∈ ms, m1.addedNodes ≠ []
      · obtain ⟨m1, h1, h2⟩ := hex
        rw [if_pos ⟨m1, h1, h2⟩, if_pos ⟨m1, List.mem_cons_of_mem _ h1, h2⟩]
      · rw [if_neg hex, if_neg]
        rintro ⟨m1, h1, h2⟩
        rcases List.mem_cons.mp h1 with rfl | h1
        · exact h2 he
        · exact hex ⟨m1, h1, h2⟩

theorem addedFields_eq_nil (ms : List MutationRecord) (h : ¬ ∃ m ∈ ms, m.addedNodes ≠ []) :
    addedFields ms = [] := by
  induction ms with
  | nil => rfl
  | cons m ms ih =>
    have hm : m.addedNodes = [] := by
      by_contra hne
      exact h ⟨m, List.mem_cons_self _ _, hne⟩
    have hrest : ¬ ∃ m1 ∈ ms, m1.addedNodes ≠ [] := by
      rintro ⟨m1, hm1, hne⟩
      exact h ⟨m1, List.mem_cons_of_mem _ hm1, hne⟩
    have := ih hrest
    simp only [addedFields, List.map_cons, List.flatten_cons, hm, List.flatten_nil,
      List.nil_append] at this ⊢
    exact this

/-- A batch leaves the marked fields of the document as they were and scans the fields it
brings in. -/
theorem mutationBatch_eq (fields : List Field) (ms : List MutationRecord)
    (h : ∀ f ∈ fields, f.listenerAdded = true) :
    mutationBatch fields ms = fields ++ rescan (addedFields ms) := by
  unfold mutationBatch
  rw [observerCallback_append, observerCallback_attached ms fields h, observerCallback_eq]
  by_cases hex : ∃ m ∈ ms, m.addedNodes ≠ []
  · rw [if_pos hex]
  · rw [if_neg hex, addedFields_eq_nil ms hex]
    rfl

theorem foldl_mutationBatch_marked (batches : List (List MutationRecord)) :
    ∀ l : List Field, (∀ f ∈ l, f.listenerAdded = true) →
      ∀ f ∈ batches.foldl mutationBatch l, f.listenerAdded = true := by
  induction batches with
  | nil => intro l h; exact h
  | cons b bs ih =>
    intro l h
    apply ih
    rw [mutationBatch_eq l b h]
    intro f hf
    rcases List.mem_append.mp hf with hf | hf
    · exact h f hf
    · exact rescan_marked _ f hf

theorem initialScan_marked (document : List Field) :
    ∀ f ∈ initialScan document, f.listenerAdded = true := by
  intro f hf
  simp only [initialScan, List.mem_map] at hf
  obtain ⟨g, _, rfl⟩ := hf
  rfl

theorem observe_marked (document : List Field) (batches : List (List MutationRecord)) :
    ∀ f ∈ observe document batches, f.listenerAdded = true :=
  foldl_mutationBatch_marked batches _ (initialScan_marked document)

theorem observe_snoc (document : List Field) (batches : List (List MutationRecord))
    (b : List MutationRecord) :
    observe document (batches ++ [b]) = mutationBatch (observe document batches) b := by
  simp [observe, List.foldl_append]

theorem foldl_mutationBatch_once (batches : List (List MutationRecord)) :
    ∀ l : List Field, (∀ f ∈ l, f.listenerAdded = true ∧ f.listeners = 1) →
      (∀ b ∈ batches, ∀ f ∈ addedFields b, f.listenerAdded = false ∧ f.listeners = 0) →
      ∀ f ∈ batches.foldl mutationBatch l, f.listenerAdded = true ∧ f.listeners = 1 := by
  induction batches with
  | nil => intro l h _; exact h
  | cons b bs ih =>
    intro l h hb
    apply ih
    · rw [mutationBatch_eq l b (fun f hf => (h f hf).1)]
      intro f hf
      rcases List.mem_append.mp hf with hf | hf
      · exact h f hf
      · simp only [rescan, List.mem_map] at hf
        obtain ⟨g, hg, rfl⟩ := hf
        obtain ⟨g1, g2⟩ := hb b (List.mem_cons_self _ _) g hg
        simp [g1, g2, attach]
    · intro b1 hb1
      exact hb b1 (List.mem_cons_of_mem _ hb1)

/-- C9, as the code has it. After the initial scan, which attaches the handler to every
field of the document once and marks it, and any sequence of mutation batches, every
field of the document carries the marker.  A batch leaves the fields already in the
document as they were, so the observer attaches none a second time and clears no marker;
of the fields the batch brings in, those that arrive without the marker get the handler
attached once and the marker set, and those that arrive with the marker are passed over.
When every field arrives without marker and listener, every field of the document ends
with the marker and exactly one attachment. -/
theorem attach_unless_marked (document : List Field) (batches : List (List MutationRecord)) :
    observe document [] = document.map attach ∧
    (∀ f ∈ observe document batches, f.listenerAdded = true) ∧
    (∀ b : List MutationRecord,
      observe document (batches ++ [b]) =
        observe document batches ++
          (addedFields b).map (fun input => if input.listenerAdded then input else attach input)) ∧
    ((∀ f ∈ document, f.listenerAdded = false ∧ f.listeners = 0) →
      (∀ b ∈ batches, ∀ f ∈ addedFields b, f.listenerAdded = false ∧ f.listeners = 0) →
      ∀ f ∈ observe document batches, f.listenerAdded = true ∧ f.listeners = 1) := by
  refine ⟨rfl, observe_marked document batches, ?_, ?_⟩
  · intro b
    rw [observe_snoc, mutationBatch_eq _ b (observe_marked document batches)]
    congr 1
    unfold rescan
    apply List.map_congr_left
    intro f _
    cases f.listenerAdded <;> rfl
  · intro hd hb
    refine foldl_mutationBatch_once batches _ ?_ hb
    intro f hf
    simp only [initialScan, List.mem_map] at hf
    obtain ⟨g, hg, rfl⟩ := hf
    obtain ⟨_, g2⟩ := hd g hg
    simp [attach, g2]

/-- C9 at a document of one field into which the page inserts one newly created field. -/
theorem attach_unless_marked_witness :
    ∀ f ∈ observe [fresh (fieldOf 200 "")] [[{ addedNodes := [[fresh (fieldOf 200 "")]] }]],
      f.listenerAdded = true ∧ f.listeners = 1 :=
  (attach_unless_marked [fresh (fieldOf 200 "")]
    [[{ addedNodes := [[fresh (fieldOf 200 "")]] }]]).2.2.2 (by decide) (by decide)

/-- C9 as stated fails: a field the page inserts as a clone of an attached field carries
the marker without the listener; the observer passes it over, and it stays in the document
with the marker set and no handler attached. -/
theorem attach_skips_cloned_field :
    (observe [fresh (fieldOf 200 "")]
        [[{ addedNodes := [[{ fresh (fieldOf 200 "") with listenerAdded := true }]] }]]).map
      (fun f => (f.listenerAdded, f.listeners)) = [(true, 1), (true, 0)] := by
  decide

end DuplicateChecker
